import Mathlib

/-!
# Verification of the MSCA-Pandoc `rtfcompile.py` text-surgery core

Shallow embedding of the pure text-manipulation functions of
`src/rtfcompile.py` over `List Char` (Python strings are sequences of code
points).  Python's `str.find`/`str.rfind` return `-1` on failure and accept
negative indices that are adjusted by the string length; both behaviours are
modelled faithfully (`pyFind`, `pyRFind`, `pySliceTo`, `pySliceFrom`), since
several of the program's behaviours hinge on `-1` flowing into slices.
-/

/-- The character `{` (written via its code point). -/
def obr : Char := Char.ofNat 123

/-- The character `}` (written via its code point). -/
def cbr : Char := Char.ofNat 125

/-- `leadsWith pat s` : `pat` is an initial run of `s` (substring test anchored
at the start, as used by `str.find` at each candidate offset). -/
def leadsWith : List Char → List Char → Bool
  | [], _ => true
  | _ :: _, [] => false
  | p :: ps, c :: cs => p == c && leadsWith ps cs

/-- Index of the first occurrence of `pat` in `s`, if any. -/
def findOcc : List Char → List Char → Option Nat
  | s, pat =>
    if leadsWith pat s then some 0
    else
      match s with
      | [] => none
      | _ :: t => (findOcc t pat).map (· + 1)

/-- Index of the last occurrence of `pat` in `s`, if any. -/
def rfindOcc : List Char → List Char → Option Nat
  | [], pat => if leadsWith pat [] then some 0 else none
  | c :: t, pat =>
    match rfindOcc t pat with
    | some k => some (k + 1)
    | none => if leadsWith pat (c :: t) then some 0 else none

/-- Python index adjustment for a lower slice/search bound: a negative index
counts from the end (clamped at 0), a non-negative one is clamped at the
length. -/
def pyAdjLo (len : Nat) (i : Int) : Nat :=
  if i < 0 then ((len : Int) + i).toNat else min i.toNat len

/-- Python `s.find(pat, st)` : first occurrence at or after `st` (adjusted),
`-1` when there is none.  (`pat` is never empty in this development, matching
every call site in the source.) -/
def pyFind (s pat : List Char) (st : Int) : Int :=
  match findOcc (s.drop (pyAdjLo s.length st)) pat with
  | some k => ((pyAdjLo s.length st + k : Nat) : Int)
  | none => -1

/-- Python `s.rfind(pat, st, en)` : last occurrence lying entirely inside
`s[st:en]` (both bounds adjusted), `-1` when there is none. -/
def pyRFind (s pat : List Char) (st en : Int) : Int :=
  match rfindOcc ((s.take (pyAdjLo s.length en)).drop (pyAdjLo s.length st)) pat with
  | some k => ((pyAdjLo s.length st + k : Nat) : Int)
  | none => -1

/-- Python `s[:e]`. -/
def pySliceTo (s : List Char) (e : Int) : List Char := s.take (pyAdjLo s.length e)

/-- Python `s[e:]`. -/
def pySliceFrom (s : List Char) (e : Int) : List Char := s.drop (pyAdjLo s.length e)

/-- Python whitespace (the ASCII part relevant to `str.strip`). -/
def pyWs (c : Char) : Bool :=
  c == ' ' || c == '\t' || c == '\n' || c == '\r' || c == '\x0b' || c == '\x0c'

/-- Python `s.strip()`. -/
def pyStrip (s : List Char) : List Char :=
  ((s.dropWhile pyWs).reverse.dropWhile pyWs).reverse

/-- Python `s.split("\n")` : the lines of `s` (empty pieces preserved). -/
def pyLines : List Char → List (List Char)
  | [] => [[]]
  | c :: t =>
    if c == '\n' then [] :: pyLines t
    else
      match pyLines t with
      | l :: ls => (c :: l) :: ls
      | [] => [[c]]

/-- Python `"\n".join(lines)`. -/
def joinNL : List (List Char) → List Char
  | [] => []
  | [l] => l
  | l :: ls => l ++ '\n' :: joinNL ls

/-! ## The program's string constants -/

/-- The literal searched for by `FOOTNOTE_PATTERN` (regex `\\footnote`, a plain
string match). -/
def fnTok : List Char := "\\footnote".toList

/-- The footnote-number anchor token `\chftn`. -/
def chftnTok : List Char := "\\chftn".toList

/-- The paragraph-reset token `\pard`. -/
def pardTok : List Char := "\\pard".toList

/-- The paragraph-break token `\par`. -/
def parTok : List Char := "\\par".toList

/-- `str(n)` for a natural number: its decimal digits. -/
def digitChar (d : Nat) : Char := Char.ofNat (48 + d)

/-- Little-endian digit run of `n` (with enough fuel). -/
def decAux : Nat → Nat → List Char
  | 0, _ => []
  | fuel + 1, n => if n = 0 then [] else digitChar (n % 10) :: decAux fuel (n / 10)

/-- Decimal rendering of a natural number, as Python `str`/f-strings print it. -/
def decRepr (n : Nat) : List Char := if n = 0 then ['0'] else (decAux n n).reverse

/-- The font-size directive `f"\fs{halfSize}"` inserted by `fix_footnotes`. -/
def fsTok (halfSize : Nat) : List Char := '\\' :: 'f' :: 's' :: decRepr halfSize

/-! ## `find_string` (src/rtfcompile.py lines 36-43) -/

/-- `find_string(content, string)`: the first occurrence of `string`, the last
`{` strictly before it, and the first `}` at or after it (offset returned one
past the `}`).  `None` when the search string, the `{` or the `}` is absent. -/
def find_string (content string : List Char) : Option (Nat × Nat) :=
  let start_index := pyFind content string 0
  if start_index ≠ -1 then
    let start_brace := pyRFind content [obr] 0 start_index
    let end_brace := pyFind content [cbr] start_index
    if start_brace ≠ -1 ∧ end_brace ≠ -1 then
      some (start_brace.toNat, end_brace.toNat + 1)
    else none
  else none

/-! ## The sentinel codec (src/rtfcompile.py lines 87-101) -/

/-- The opening sentinel head: the text of `"{\\comment tex2rtf/from: "`. -/
def fromLit : List Char := obr :: "\\comment tex2rtf/from: ".toList

/-- The closing sentinel head: the text of `"{\\comment tex2rtf/to: "`. -/
def toLit : List Char := obr :: "\\comment tex2rtf/to: ".toList

/-- `prepend_append_rtf(rtf_content, file_name)`. -/
def prepend_append_rtf (rtf_content file_name : List Char) : List Char :=
  (fromLit ++ file_name ++ [cbr] ++ ['\n']) ++ rtf_content ++
    (['\n'] ++ toLit ++ file_name ++ [cbr])

/-- The full closing sentinel for a name (what the regex back-reference
requires after the body). -/
def toFull (name : List Char) : List Char := toLit ++ name ++ [cbr]

/-- The lazy group-2 scan of the extraction regex: starting right after the
`}` that closed group 1 (= `name`), extend the body one character at a time
until the closing sentinel for `name` starts here.  Returns the body and the
text after the whole match. -/
def tryG2 (name : List Char) : List Char → List Char → Option (List Char × List Char)
  | acc, s =>
    if leadsWith (toFull name) s then some (acc, s.drop (toFull name).length)
    else
      match s with
      | [] => none
      | c :: t => tryG2 name (acc ++ [c]) t

/-- The lazy group-1 scan of the extraction regex: extend the candidate name
one character at a time; at each `}` attempt to complete the match (group 2),
and on failure keep extending (the regex engine backtracks through the `}`). -/
def tryG1 : List Char → List Char → Option (List Char × List Char × List Char)
  | _, [] => none
  | acc, c :: t =>
    if c == cbr then
      match tryG2 acc [] t with
      | some (body, rest) => some (acc, body, rest)
      | none => tryG1 (acc ++ [c]) t
    else tryG1 (acc ++ [c]) t

/-- One anchored attempt of the extraction regex
`{\\comment tex2rtf/from: (.*?)}(.*?){\\comment tex2rtf/to: \1}` (DOTALL). -/
def tryMatch (s : List Char) : Option (List Char × List Char × List Char) :=
  if leadsWith fromLit s then tryG1 [] (s.drop fromLit.length) else none

/-- `re.findall` over the document: scan left to right, take each leftmost
match, continue after its end (non-overlapping). -/
def findAllAux : Nat → List Char → List (List Char × List Char)
  | 0, _ => []
  | _ + 1, [] => []
  | fuel + 1, c :: t =>
    match tryMatch (c :: t) with
    | some (name, body, rest) => (name, body) :: findAllAux fuel rest
    | none => findAllAux fuel t

/-- `extract_rtf_content` on an in-memory document: all sentinel-delimited
spans, each body stripped. -/
def extract_rtf_content (content : List Char) : List (List Char × List Char) :=
  (findAllAux content.length content).map (fun m => (m.1, pyStrip m.2))

/-! ## `fix_footnotes` (src/rtfcompile.py lines 104-150) -/

/-- The `for i in range(end, len(...))` brace-counting loop: per character
update `open_braces`/`close_braces` and stop at the first index where they are
equal; `none` when the range is exhausted without a break. -/
def braceScanAux : List Char → Nat → Nat → Nat → Option Nat
  | [], _, _, _ => none
  | c :: t, i, ob, cb =>
    let ob' := if c == obr then ob + 1 else ob
    let cb' := if c == obr then cb else if c == cbr then cb + 1 else cb
    if ob' == cb' then some i else braceScanAux t (i + 1) ob' cb'

/-- The value of `i` after the brace loop: the break index, or the last index
of the range when no break fired. -/
def braceScan (s : List Char) (start : Nat) : Nat :=
  match braceScanAux (s.drop start) start 1 0 with
  | some i => i
  | none => s.length - 1

/-- One iteration of the `while True` body of `fix_footnotes`: `none` when the
search finds no further `\footnote` (the loop exits).  Mirrors the source line
by line, `-1` results and negative slice indices included.  The returned `Bool`
records whether the malformed-footnote warning was printed. -/
def fixBody (fsT : List Char) (w : List Char) (sms : Nat) :
    Option (List Char × Nat × Bool) :=
  let m := pyFind w fnTok (sms : Int)
  if m = -1 then none
  else
    let e1 := pyFind w chftnTok m
    let warned := e1 = -1
    let w1 := pySliceTo w e1 ++ fsT ++ pySliceFrom w e1
    let fstart := pyFind w1 [obr] e1
    let e2 := pyFind w1 pardTok (fstart + 1) + 5
    let w2 := pySliceTo w1 e2 ++ fsT ++ pySliceFrom w1 e2
    let i := braceScan w2 e2.toNat
    let st := pyRFind w2 parTok e1 (i : Int)
    let w3 := pySliceTo w2 st ++ pySliceFrom w2 (st + 4)
    some (w3, i - 4, decide warned)

/-- The `while True` loop of `fix_footnotes`, with fuel: `none` means the loop
was still running when the fuel ran out.  The `Nat` accumulates how many
malformed-footnote warnings were printed. -/
def fixLoopAux (fsT : List Char) : Nat → List Char → Nat → Nat → Option (List Char × Nat)
  | 0, _, _, _ => none
  | fuel + 1, w, sms, warn =>
    match fixBody fsT w sms with
    | none => some (w, warn)
    | some (w', sms', b) => fixLoopAux fsT fuel w' sms' (warn + (if b then 1 else 0))

/-- `fix_footnotes(rtf_content, footnote_size)`; `footnote_size = int(footnote_size*2)`
is the half-point size.  `none` = the while loop outlived the fuel. -/
def fix_footnotes (fuel : Nat) (rtf_content : List Char) (footnote_size : Nat) :
    Option (List Char × Nat) :=
  fixLoopAux (fsTok (2 * footnote_size)) fuel rtf_content 0 0

/-! ## Concatenate / split (src/rtfcompile.py lines 167-200) -/

/-- The marker token `"RTF2COMPILE - MARKER LINE - "`. -/
def markTok : List Char := "RTF2COMPILE - MARKER LINE - ".toList

/-- `concat_tex_files`: for each (name, content) append
`"\n\n" + marker + name + "\n\n"` then the content. -/
def concat_tex_files (files : List (List Char × List Char)) : List Char :=
  files.foldl (fun acc f => acc ++ ('\n' :: '\n' :: (markTok ++ f.1 ++ ['\n', '\n'])) ++ f.2) []

/-- The line loop of `split_rtf_content`: a line containing the marker token
flushes the current bucket (if non-empty) and starts a new one; any other line
is appended to the current bucket; at the end a non-empty bucket is flushed. -/
def splitLoop : List (List Char) → List (List Char) → List (List Char) → List (List Char)
  | [], acc, cur => if cur.isEmpty then acc else acc ++ [joinNL cur]
  | line :: rest, acc, cur =>
    if (findOcc line markTok).isSome then
      splitLoop rest (if cur.isEmpty then acc else acc ++ [joinNL cur]) []
    else splitLoop rest acc (cur ++ [line])

/-- `split_rtf_content(rtf_content, file_paths)`: the buckets, plus whether the
count-mismatch warning was printed. -/
def split_rtf_content (rtf_content : List Char) (file_paths : List (List Char)) :
    List (List Char) × Bool :=
  (splitLoop (pyLines rtf_content) [] [],
   (splitLoop (pyLines rtf_content) [] []).length != file_paths.length)

/-! ## The template fill loop of `compile` (src/rtfcompile.py lines 231-242) -/

/-- The per-fragment splice of `compile`: locate the search string with
`find_string` and replace `template[occ[0]:occ[1]]` by the replacement; `none`
models the fatal `RuntimeError` when `find_string` fails. -/
def fillLoop (search : List Char) : List (List Char) → List Char → Option (List Char)
  | [], template => some template
  | r :: rs, template =>
    match find_string template search with
    | none => none
    | some (a, b) => fillLoop search rs (template.take a ++ r ++ template.drop b)

/-! ## The footnote-size configuration path (src/rtfcompile.py lines 46-53,
107-109, 220-227) -/

/-- `compile` (line 226) passes `config.get("footnote_size")` — `None` when the
key is absent — positionally into `convert`'s `footnote_size` parameter, so
`convert`'s declared default of 10 is bypassed whenever `compile` runs. -/
def convertArgFootnoteSize (cfg : Option Int) : Option Int := cfg

/-- Line 109, `footnote_size = int(footnote_size * 2)`: on an integer this is
`2*s`; on `None` the expression `None * 2` raises `TypeError` (modelled as
`none`: no half-point value is ever produced, the pipeline dies). -/
def fixFootnotesHalfPoints : Option Int → Option Int
  | none => none
  | some s => some (s * 2)

/-- The half-point size that reaches the inserted `\fs` directives when
`compile` runs with configuration value `cfg` for `footnote_size`. -/
def compileHalfPoints (cfg : Option Int) : Option Int :=
  fixFootnotesHalfPoints (convertArgFootnoteSize cfg)

/-! ## Derived definitions used by the claims -/

/-- All offsets at which `pat` occurs in `w`. -/
def occIdxs (w pat : List Char) : List Nat :=
  (List.range w.length).filter (fun q => leadsWith pat (w.drop q))

/-- `noMidOccB pat a`: in `a ++ pat`, no occurrence of `pat` starts before
offset `a.length` (so in any `a ++ pat ++ b` the first occurrence is at
`a.length`). -/
def noMidOccB (pat a : List Char) : Bool :=
  (List.range a.length).all (fun q => ! leadsWith pat ((a ++ pat).drop q))

/-- Depth-counting matcher, following the spec's words: from a position just
after an opening `{` at depth 1, return the offset of the `}` where the depth
returns to 0, skipping nested sub-groups. -/
def depthClose : List Char → Nat → Nat → Option Nat
  | [], _, _ => none
  | c :: t, i, d =>
    if c == cbr then (if d == 1 then some i else depthClose t (i + 1) (d - 1))
    else if c == obr then depthClose t (i + 1) (d + 1)
    else depthClose t (i + 1) d

/-- Modelled from the spec: `find_enclosing_or_following_group` as §4.1 words
it — the nearest `{` at or before the first occurrence of the search string,
and its matching `}` found by counting nested braces until the depth returns
to the starting depth (result offsets follow `find_string`'s conventions:
`(start_brace, one past the matching brace)`). -/
def find_string_spec (content string : List Char) : Option (Nat × Nat) :=
  match findOcc content string with
  | none => none
  | some si =>
    match rfindOcc (content.take (si + 1)) [obr] with
    | none => none
    | some sb =>
      match depthClose (content.drop (sb + 1)) (sb + 1) 1 with
      | none => none
      | some eb => some (sb, eb + 1)

/-- The buckets `split_rtf_content` actually produces from
`concat_tex_files` output, after the spurious leading whitespace bucket:
`"\n" ++ content ++ "\n"` for every fragment but the last and
`"\n" ++ content` for the last. -/
def expectedBuckets : List (List Char × List Char) → List (List Char)
  | [] => []
  | [(_, c)] => ['\n' :: c]
  | (_, c) :: rest => ('\n' :: (c ++ ['\n'])) :: expectedBuckets rest

/-- A well-formed footnote occurrence, decomposed as the code scans it:
`\footnote ⟨pre⟩ \chftn ⟨mid⟩ { ⟨body1⟩ \pard ⟨body2⟩ \par }`. -/
structure Footnote where
  pre : List Char
  mid : List Char
  body1 : List Char
  body2 : List Char

/-- Render one well-formed footnote occurrence as it appears in the input. -/
def renderFn (f : Footnote) : List Char :=
  fnTok ++ f.pre ++ chftnTok ++ f.mid ++
    obr :: (f.body1 ++ pardTok ++ f.body2 ++ parTok ++ [cbr])

/-- Render one footnote occurrence as `fix_footnotes` leaves it: the size
directive `fsT` immediately before `\chftn` and immediately after `\pard`,
and the trailing `\par` before the closing brace removed; everything else
(including any `\par` tokens inside `body2`) untouched. -/
def renderFnFixed (fsT : List Char) (f : Footnote) : List Char :=
  fnTok ++ f.pre ++ fsT ++ chftnTok ++ f.mid ++
    obr :: (f.body1 ++ pardTok ++ fsT ++ f.body2 ++ [cbr])

/-- A document tail: footnote occurrences each followed by trailing plain
text. -/
def renderTail : List (Footnote × List Char) → List Char
  | [] => []
  | (f, t) :: rest => renderFn f ++ t ++ renderTail rest

/-- The same tail after normalization. -/
def renderTailFixed (fsT : List Char) : List (Footnote × List Char) → List Char
  | [] => []
  | (f, t) :: rest => renderFnFixed fsT f ++ t ++ renderTailFixed fsT rest

/-- A document: plain text, then footnote occurrences with trailing text. -/
def renderDoc (p0 : List Char) (fs : List (Footnote × List Char)) : List Char :=
  p0 ++ renderTail fs

/-- The document after normalization. -/
def renderDocFixed (fsT : List Char) (p0 : List Char)
    (fs : List (Footnote × List Char)) : List Char :=
  p0 ++ renderTailFixed fsT fs

/-- Brace balance check with running depth: every prefix closes at most as
many groups as it opens, and the whole string is balanced.  (This is the
condition under which the code's brace loop runs past `body2` and breaks
exactly at the footnote body's own closing brace.) -/
def braceOk : List Char → Nat → Bool
  | [], d => d == 0
  | c :: t, d =>
    if c == obr then braceOk t (d + 1)
    else if c == cbr then decide (0 < d) && braceOk t (d - 1)
    else braceOk t d

/-- One footnote occurrence is scanned as intended when: no `\chftn` occurs
before the real one, no `{` occurs before the body's brace, no `\pard`
occurs inside `body1` before the real one, and `body2` is properly
brace-nested. -/
def fnOkB (f : Footnote) : Bool :=
  noMidOccB chftnTok (fnTok ++ f.pre) && ! f.mid.contains obr &&
    noMidOccB pardTok f.body1 && braceOk f.body2 0

/-- Well-formedness of a whole document tail: every footnote is well formed
and no trailing text lets a spurious `\footnote` start before the next real
one (nor contains one after the last). -/
def wfPairsB : List (Footnote × List Char) → Bool
  | [] => true
  | (f, t) :: rest => fnOkB f && noMidOccB fnTok (cbr :: t) && wfPairsB rest

/-- The line sequence `split_rtf_content` sees for a concatenated tail,
starting at a marker line: the marker line with its fragment name, the blank
line from the separator's closing newline pair, the fragment's own lines,
and (for every fragment but the last) the blank line opened by the next
separator. -/
def tailLines : List (List Char × List Char) → List (List Char)
  | [] => []
  | [(n, c)] => (markTok ++ n) :: [] :: pyLines c
  | (n, c) :: rest => ((markTok ++ n) :: [] :: (pyLines c ++ [[]])) ++ tailLines rest

/-- One template slot for the fill loop: the brace group `{u ++ search ++ v}`
followed by trailing text `t`, and the replacement `r` spliced in for it. -/
structure Slot where
  u : List Char
  v : List Char
  t : List Char
  r : List Char

/-- Render the slot groups of a template (after the leading text). -/
def renderSlots (search : List Char) : List Slot → List Char
  | [] => []
  | sl :: rest => obr :: (sl.u ++ search ++ sl.v ++ cbr :: sl.t) ++ renderSlots search rest

/-- The text of the template after all slots are filled. -/
def filledText : List Char → List Slot → List Char
  | C, [] => C
  | C, sl :: rest => filledText (C ++ sl.r ++ sl.t) rest

/-- Conditions under which the fill loop consumes the slots left to right:
the search string is non-empty and brace-free where it matters, each group
interior is brace-free on the relevant side, no occurrence of the search
string starts before the current slot's designated one, and no occurrence
survives in the fully filled text. -/
def fillOkB (search : List Char) : List Char → List Slot → Bool
  | C, [] => (findOcc C search).isNone
  | C, sl :: rest =>
    !(sl.u.contains obr) && !(sl.v.contains cbr) && !(search.contains cbr) &&
      noMidOccB search (C ++ obr :: sl.u) && fillOkB search (C ++ sl.r ++ sl.t) rest

/-- `k` copies of the `\fs20` directive. -/
def fsRep : Nat → List Char
  | 0 => []
  | k + 1 => fsTok 20 ++ fsRep k

/-- The stable prefix of the diverging `fix_footnotes` run after `k`
iterations: `\pard`, `k` inserted directives, `\par}`. -/
def badPre (k : Nat) : List Char := pardTok ++ fsRep k ++ (parTok ++ [cbr])

/-- The loop invariant of the diverging run: the document is the stable
prefix followed by a still-unconsumed `\footnote` and junk `X` that contains
no `h` (so no `\chftn` can ever be found), is non-empty, and does not end in
`{`. -/
def BadInv (w : List Char) (sms : Nat) : Prop :=
  ∃ k X, w = badPre k ++ fnTok ++ X ∧ (sms = 5 * k + 5 ∨ (k = 0 ∧ sms = 0)) ∧
    'h' ∉ X ∧ X ≠ [] ∧ X.getLast? ≠ some obr

/-! ## Generic lemmas about the string-search primitives -/

theorem leadsWith_iff_take (p : List Char) : ∀ s : List Char,
    leadsWith p s = true ↔ s.take p.length = p := by
  induction p with
  | nil => intro s; simp [leadsWith]
  | cons x xs ih =>
    intro s
    cases s with
    | nil => simp [leadsWith]
    | cons c cs =>
      simp only [leadsWith, List.length_cons, List.take_succ_cons, Bool.and_eq_true, beq_iff_eq]
      rw [ih cs]
      constructor
      · rintro ⟨h1, h2⟩; rw [h1, h2]
      · intro h; injection h with h1 h2; exact ⟨h1.symm, h2⟩

theorem leadsWith_length {p s : List Char} (h : leadsWith p s = true) :
    p.length ≤ s.length := by
  rw [leadsWith_iff_take] at h
  have := congrArg List.length h
  simp [List.length_take] at this
  omega

theorem leadsWith_false_of_short {p s : List Char} (h : s.length < p.length) :
    leadsWith p s = false := by
  cases hl : leadsWith p s
  · rfl
  · exact absurd (leadsWith_length hl) (by omega)

theorem leadsWith_congr_take {p s s' : List Char}
    (h : s.take p.length = s'.take p.length) : leadsWith p s = leadsWith p s' := by
  cases hl : leadsWith p s'
  · cases hl2 : leadsWith p s
    · rfl
    · rw [leadsWith_iff_take] at hl2
      rw [h] at hl2
      rw [(leadsWith_iff_take p s').mpr hl2] at hl
      exact hl
  · rw [leadsWith_iff_take] at hl ⊢
    rw [h]; exact hl

theorem leadsWith_append_self (p r : List Char) : leadsWith p (p ++ r) = true := by
  rw [leadsWith_iff_take]; exact List.take_left p r

theorem leadsWith_refl (p : List Char) : leadsWith p p = true := by
  rw [leadsWith_iff_take]; simp

theorem leadsWith_mem {p s : List Char} (h : leadsWith p s = true) :
    ∀ c ∈ p, c ∈ s := by
  rw [leadsWith_iff_take] at h
  intro c hc
  rw [← h] at hc
  exact List.take_subset _ _ hc

theorem leadsWith_nil_iff (p : List Char) : leadsWith p [] = true ↔ p = [] := by
  cases p <;> simp [leadsWith]

/-! ### `findOcc` -/

theorem findOcc_pos {s pat : List Char} (h : leadsWith pat s = true) :
    findOcc s pat = some 0 := by
  cases s <;> simp [findOcc, h]

theorem findOcc_cons_neg {c : Char} {t pat : List Char}
    (h : leadsWith pat (c :: t) = false) :
    findOcc (c :: t) pat = (findOcc t pat).map (· + 1) := by
  simp [findOcc, h]

theorem findOcc_mid : ∀ (a : List Char) (pat b : List Char),
    (∀ q < a.length, leadsWith pat ((a ++ pat).drop q) = false) →
    findOcc (a ++ (pat ++ b)) pat = some a.length := by
  intro a
  induction a with
  | nil => intro pat b _; simpa using findOcc_pos (leadsWith_append_self pat b)
  | cons c a' ih =>
    intro pat b hnm
    have hfalse : leadsWith pat (c :: a' ++ (pat ++ b)) = false := by
      have h0 := hnm 0 (by simp)
      rw [List.drop_zero] at h0
      rw [← h0]
      apply leadsWith_congr_take
      have hle : pat.length ≤ (c :: a' ++ pat).length := by
        simp [List.length_append]; omega
      rw [show c :: a' ++ (pat ++ b) = (c :: a' ++ pat) ++ b by simp]
      exact List.take_append_of_le_length hle
    rw [show (c :: a') ++ (pat ++ b) = c :: (a' ++ (pat ++ b)) by simp]
    rw [findOcc_cons_neg (by simpa using hfalse)]
    have ih' := ih pat b (fun q hq => by
      have := hnm (q + 1) (by simpa using Nat.succ_lt_succ hq)
      simpa using this)
    rw [ih']
    simp

theorem findOcc_none_of_all : ∀ (s pat : List Char),
    (∀ q, leadsWith pat (s.drop q) = false) → findOcc s pat = none := by
  intro s
  induction s with
  | nil =>
    intro pat h
    have h0 := h 0
    simp only [List.drop_nil] at h0
    simp [findOcc, h0]
  | cons c t ih =>
    intro pat h
    have h0 := h 0
    rw [List.drop_zero] at h0
    rw [findOcc_cons_neg h0]
    rw [ih pat (fun q => by simpa using h (q + 1))]
    rfl

theorem findOcc_none_of_not_mem {s pat : List Char} {c : Char}
    (hc : c ∈ pat) (hs : c ∉ s) : findOcc s pat = none := by
  apply findOcc_none_of_all
  intro q
  cases hl : leadsWith pat (s.drop q)
  · rfl
  · exact absurd (List.drop_subset q s (leadsWith_mem hl c hc)) hs

theorem findOcc_some_spec : ∀ (s pat : List Char) (k : Nat),
    findOcc s pat = some k →
    leadsWith pat (s.drop k) = true ∧ ∀ j < k, leadsWith pat (s.drop j) = false := by
  intro s
  induction s with
  | nil =>
    intro pat k h
    by_cases hl : leadsWith pat [] = true
    · simp [findOcc, hl] at h
      subst h
      exact ⟨by simpa using hl, fun j hj => by omega⟩
    · simp [findOcc, Bool.eq_false_iff.mpr hl] at h
  | cons c t ih =>
    intro pat k h
    cases hl : leadsWith pat (c :: t)
    · rw [findOcc_cons_neg hl] at h
      cases hfo : findOcc t pat with
      | none => rw [hfo] at h; simp at h
      | some k' =>
        rw [hfo] at h
        simp at h
        obtain ⟨h1, h2⟩ := ih pat k' hfo
        subst h
        refine ⟨by simpa using h1, ?_⟩
        intro j hj
        cases j with
        | zero => simpa using hl
        | succ j' => simpa using h2 j' (by omega)
    · rw [findOcc_pos hl] at h
      injection h with h
      subst h
      exact ⟨by simpa using hl, fun j hj => by omega⟩

theorem findOcc_none_spec : ∀ (s pat : List Char),
    findOcc s pat = none → ∀ j, leadsWith pat (s.drop j) = false := by
  intro s
  induction s with
  | nil =>
    intro pat h j
    by_cases hl : leadsWith pat [] = true
    · simp [findOcc, hl] at h
    · simpa using Bool.eq_false_iff.mpr hl
  | cons c t ih =>
    intro pat h j
    cases hl : leadsWith pat (c :: t)
    · rw [findOcc_cons_neg hl] at h
      cases hfo : findOcc t pat with
      | none =>
        cases j with
        | zero => simpa using hl
        | succ j' => simpa using ih pat hfo j'
      | some k' => rw [hfo] at h; simp at h
    · rw [findOcc_pos hl] at h; simp at h

/-! ### `rfindOcc` -/

theorem rfindOcc_none_of_short : ∀ (s pat : List Char), s.length < pat.length →
    rfindOcc s pat = none := by
  intro s
  induction s with
  | nil =>
    intro pat h
    have : leadsWith pat [] = false := leadsWith_false_of_short (by simpa using h)
    simp [rfindOcc, this]
  | cons c t ih =>
    intro pat h
    have ht : rfindOcc t pat = none := ih pat (by simp at h ⊢; omega)
    have : leadsWith pat (c :: t) = false := leadsWith_false_of_short h
    simp [rfindOcc, ht, this]

theorem rfindOcc_append_self : ∀ (y pat : List Char), pat ≠ [] →
    rfindOcc (y ++ pat) pat = some y.length := by
  intro y
  induction y with
  | nil =>
    intro pat hp
    cases pat with
    | nil => exact absurd rfl hp
    | cons c t =>
      have ht : rfindOcc t (c :: t) = none :=
        rfindOcc_none_of_short t (c :: t) (by simp)
      simp [rfindOcc, ht, leadsWith_refl]
  | cons c y' ih =>
    intro pat hp
    have := ih pat hp
    simp [rfindOcc, this]

theorem rfindOcc_none_of_not_mem : ∀ (s pat : List Char) (c : Char),
    c ∈ pat → c ∉ s → rfindOcc s pat = none := by
  intro s
  induction s with
  | nil =>
    intro pat c hc hs
    have : pat ≠ [] := by rintro rfl; simp at hc
    have : leadsWith pat [] = false := by
      cases hl : leadsWith pat []
      · rfl
      · exact absurd ((leadsWith_nil_iff pat).mp hl) this
    simp [rfindOcc, this]
  | cons x t ih =>
    intro pat c hc hs
    have ht : rfindOcc t pat = none := ih pat c hc (fun h => hs (List.mem_cons_of_mem x h))
    have hl : leadsWith pat (x :: t) = false := by
      cases hl : leadsWith pat (x :: t)
      · rfl
      · exact absurd (leadsWith_mem hl c hc) hs
    simp [rfindOcc, ht, hl]

theorem rfindOcc_single_last : ∀ (C : List Char) (c : Char) (u : List Char), c ∉ u →
    rfindOcc (C ++ c :: u) [c] = some C.length := by
  intro C
  induction C with
  | nil =>
    intro c u hu
    have hn : rfindOcc u [c] = none := rfindOcc_none_of_not_mem u [c] c (by simp) hu
    simp [rfindOcc, hn, leadsWith]
  | cons x C' ih =>
    intro c u hu
    have := ih c u hu
    simp [rfindOcc, this]

theorem rfindOcc_ne_none_of_occ : ∀ (t pat : List Char) (j : Nat),
    leadsWith pat (t.drop j) = true → rfindOcc t pat ≠ none := by
  intro t
  induction t with
  | nil =>
    intro pat j hl
    rw [List.drop_nil] at hl
    simp [rfindOcc, hl]
  | cons x t' ih =>
    intro pat j hl
    cases j with
    | zero =>
      rw [List.drop_zero] at hl
      cases h2 : rfindOcc t' pat <;> simp [rfindOcc, h2, hl]
    | succ j' =>
      rw [List.drop_succ_cons] at hl
      have := ih pat j' hl
      cases h2 : rfindOcc t' pat with
      | some k2 => simp [rfindOcc, h2]
      | none => exact absurd h2 this

theorem rfindOcc_some_spec : ∀ (s pat : List Char) (k : Nat), pat ≠ [] →
    rfindOcc s pat = some k →
    leadsWith pat (s.drop k) = true ∧ ∀ j, k < j → leadsWith pat (s.drop j) = false := by
  intro s
  induction s with
  | nil =>
    intro pat k hp h
    by_cases hl : leadsWith pat [] = true
    · exact absurd ((leadsWith_nil_iff pat).mp hl) hp
    · simp [rfindOcc, Bool.eq_false_iff.mpr hl] at h
  | cons c t ih =>
    intro pat k hp h
    cases hro : rfindOcc t pat with
    | some k' =>
      simp [rfindOcc, hro] at h
      obtain ⟨h1, h2⟩ := ih pat k' hp hro
      subst h
      refine ⟨by simpa using h1, fun j hj => ?_⟩
      cases j with
      | zero => omega
      | succ j' => simpa using h2 j' (by omega)
    | none =>
      have hall : ∀ j, leadsWith pat (t.drop j) = false := by
        intro j
        cases hl : leadsWith pat (t.drop j)
        · rfl
        · exact absurd hro (rfindOcc_ne_none_of_occ t pat j hl)
      cases hl : leadsWith pat (c :: t)
      · simp [rfindOcc, hro, hl] at h
      · simp [rfindOcc, hro, hl] at h
        subst h
        refine ⟨by simpa using hl, fun j hj => ?_⟩
        cases j with
        | zero => omega
        | succ j' => simpa using hall j'

theorem rfindOcc_none_spec : ∀ (s pat : List Char),
    rfindOcc s pat = none → ∀ j, leadsWith pat (s.drop j) = false := by
  intro s
  induction s with
  | nil =>
    intro pat h j
    by_cases hl : leadsWith pat [] = true
    · simp [rfindOcc, hl] at h
    · simpa using Bool.eq_false_iff.mpr hl
  | cons c t ih =>
    intro pat h j
    cases hro : rfindOcc t pat with
    | some k' => simp [rfindOcc, hro] at h
    | none =>
      cases hl : leadsWith pat (c :: t)
      · cases j with
        | zero => simpa using hl
        | succ j' => simpa using ih pat hro j'
      · simp [rfindOcc, hro, hl] at h

/-! ### `pyFind`, `pyRFind` and the slices -/

theorem pyAdjLo_nat {len st : Nat} (h : st ≤ len) : pyAdjLo len (st : Int) = st := by
  unfold pyAdjLo
  rw [if_neg (by omega : ¬ (st : Int) < 0), Int.toNat_ofNat]
  omega

theorem pyAdjLo_neg_one (len : Nat) : pyAdjLo len (-1) = len - 1 := by
  simp [pyAdjLo]
  omega

theorem pyFind_split {w pat : List Char} {st : Nat} {a b : List Char}
    (hst : st ≤ w.length) (hw : w.drop st = a ++ (pat ++ b))
    (hnm : ∀ q < a.length, leadsWith pat ((a ++ pat).drop q) = false) :
    pyFind w pat (st : Int) = ((st + a.length : Nat) : Int) := by
  unfold pyFind
  rw [pyAdjLo_nat hst, hw, findOcc_mid a pat b hnm]

theorem pyFind_neg {w pat : List Char} {st : Nat} (hst : st ≤ w.length)
    (h : findOcc (w.drop st) pat = none) : pyFind w pat (st : Int) = -1 := by
  unfold pyFind
  rw [pyAdjLo_nat hst, h]

theorem pyRFind_split {w pat : List Char} {st en : Nat} {y : List Char}
    (hen : en ≤ w.length) (hst : st ≤ en) (hy : (w.take en).drop st = y ++ pat)
    (hp : pat ≠ []) :
    pyRFind w pat (st : Int) (en : Int) = ((st + y.length : Nat) : Int) := by
  unfold pyRFind
  rw [pyAdjLo_nat (le_trans hst hen), pyAdjLo_nat hen, hy, rfindOcc_append_self y pat hp]

theorem pyRFind_of_empty_slice {w pat : List Char} {st en : Int} (hp : pat ≠ [])
    (h : min (pyAdjLo w.length en) w.length ≤ pyAdjLo w.length st) :
    pyRFind w pat st en = -1 := by
  unfold pyRFind
  have hnil : (w.take (pyAdjLo w.length en)).drop (pyAdjLo w.length st) = [] := by
    apply List.drop_eq_nil_of_le
    rw [List.length_take]
    omega
  rw [hnil]
  rw [rfindOcc_none_of_short [] pat (by simp; exact List.length_pos.mpr hp)]

theorem pySliceTo_nat {w : List Char} {e : Nat} : pySliceTo w (e : Int) = w.take e := by
  unfold pySliceTo
  by_cases h : e ≤ w.length
  · rw [pyAdjLo_nat h]
  · have h1 : pyAdjLo w.length (e : Int) = w.length := by
      unfold pyAdjLo
      rw [if_neg (by omega : ¬ (e : Int) < 0), Int.toNat_ofNat]
      omega
    rw [h1, List.take_length, List.take_of_length_le (by omega)]

theorem pySliceFrom_nat {w : List Char} {e : Nat} : pySliceFrom w (e : Int) = w.drop e := by
  unfold pySliceFrom
  by_cases h : e ≤ w.length
  · rw [pyAdjLo_nat h]
  · have h1 : pyAdjLo w.length (e : Int) = w.length := by
      unfold pyAdjLo
      rw [if_neg (by omega : ¬ (e : Int) < 0), Int.toNat_ofNat]
      omega
    rw [h1, List.drop_length, List.drop_eq_nil_of_le (by omega)]

theorem pySliceTo_neg_one {w : List Char} : pySliceTo w (-1) = w.dropLast := by
  unfold pySliceTo
  rw [pyAdjLo_neg_one, List.dropLast_eq_take]

theorem pySliceFrom_neg_one {w : List Char} : pySliceFrom w (-1) = w.drop (w.length - 1) := by
  unfold pySliceFrom
  rw [pyAdjLo_neg_one]

/-- Splitting an insertion `w[:e] ++ ins ++ w[e:]` at an exact boundary. -/
theorem slice_insert_exact {x y ins : List Char} :
    pySliceTo (x ++ y) ((x.length : Nat) : Int) ++ ins ++ pySliceFrom (x ++ y) ((x.length : Nat) : Int)
      = x ++ ins ++ y := by
  rw [pySliceTo_nat, pySliceFrom_nat, List.take_left, List.drop_left]

/-! ## C10: the expected-names argument never influences the returned buckets -/

/-- C10: for every converted document and any two candidate name lists,
`split_rtf_content` returns the same bucket sequence — the `file_paths`
argument feeds only the count-mismatch warning, never the content. -/
theorem split_rtf_content_ignores_paths (rtf : List Char)
    (fps1 fps2 : List (List Char)) :
    (split_rtf_content rtf fps1).1 = (split_rtf_content rtf fps2).1 := rfl

/-! ## C8: the unconfigured footnote size does not default to 10 -/

/-- C8 (code bug): `compile` passes `config.get("footnote_size")` — `None`
when the key is absent — positionally, bypassing `convert`'s default of 10;
`fix_footnotes` then evaluates `int(None * 2)`, a `TypeError`, so no
half-point value (in particular not 20) is ever produced.  For a configured
integral size `s` the injected value is `s * 2` as the claim states. -/
theorem compileHalfPoints_none_crashes :
    compileHalfPoints none = none ∧
      ∀ s : Int, compileHalfPoints (some s) = some (s * 2) :=
  ⟨rfl, fun _ => rfl⟩

/-! ## Counterexample evaluations -/

/-- C1 counterexample: one fragment, but `split ∘ concat` returns two buckets
(`["\n", "\nHi"]`): the blank-line separator before the first marker line is
flushed as a spurious leading bucket, so there is not exactly one bucket per
fragment. -/
theorem split_concat_extra_bucket :
    (split_rtf_content (concat_tex_files [(['a'], ['H', 'i'])]) [['a']]).1
        = [['\n'], ['\n', 'H', 'i']] ∧
      (split_rtf_content (concat_tex_files [(['a'], ['H', 'i'])]) [['a']]).1.length ≠ 1 := by
  refine ⟨by decide, by decide⟩

/-- C3 counterexample: on `{a{b}c}` with search string `a`, the code returns
`(0, 5)` — one past the FIRST `}` after the occurrence, which closes the
nested sub-group — not `(0, 7)`, one past the depth-matching brace the spec
describes; and with search string `{a`, whose occurrence starts at the `{`
itself, the code fails although a `{` sits at the search offset. -/
theorem find_string_not_depth_matched :
    find_string (obr :: 'a' :: obr :: 'b' :: cbr :: 'c' :: cbr :: []) ['a'] = some (0, 5) ∧
      find_string_spec (obr :: 'a' :: obr :: 'b' :: cbr :: 'c' :: cbr :: []) ['a'] = some (0, 7) ∧
      find_string (obr :: 'a' :: 'b' :: []) (obr :: 'a' :: []) = none := by
  refine ⟨by decide, by decide, by decide⟩

/-- C7 counterexample: the template `{X{X}}` contains exactly two occurrences
of the search string `X` (offsets 1 and 3), each inside a brace group, yet
filling twice raises: the first splice replaces `[0, 5)` (up to the first
`}`, inside the nested group), destroying the second occurrence, and the
second `find_string` fails — `compile` raises `RuntimeError` (`none`). -/
theorem fillLoop_nested_raises :
    occIdxs (obr :: 'X' :: obr :: 'X' :: cbr :: cbr :: []) ['X'] = [1, 3] ∧
      fillLoop ['X'] [['A'], ['B']] (obr :: 'X' :: obr :: 'X' :: cbr :: cbr :: []) = none := by
  refine ⟨by decide, by decide⟩

/-- C4 (code bug) evaluation: on `"\footnote abc"` (marker with no `\chftn`
anchor) the code prints the warning (count 1) but does NOT skip: `end = -1`
flows into the slices, so `\fs20` is spliced in before the last character and
again at offset 4, and the `rfind`/`[-1]` deletion then duplicates most of the
document — the occurrence's text is anything but untouched. -/
theorem fix_footnotes_malformed_injects :
    fix_footnotes 5 ("\\footnote abc".toList) 10
      = some ("\\foo\\fs20tnote ab\\fs20o\\fs20tnote ab\\fs20c".toList, 1) := by
  decide

/-! ## C2: the sentinel codec round-trip -/

theorem noMidOccB_iff (pat a : List Char) : noMidOccB pat a = true ↔
    ∀ q < a.length, leadsWith pat ((a ++ pat).drop q) = false := by
  unfold noMidOccB
  rw [List.all_eq_true]
  constructor
  · intro h q hq
    have := h q (List.mem_range.mpr hq)
    simpa using this
  · intro h q hq
    have := h q (List.mem_range.mp hq)
    simpa using this

theorem findAllAux_nil : ∀ fuel : Nat, findAllAux fuel [] = [] := by
  intro fuel
  cases fuel <;> rfl

theorem tryG2_complete : ∀ (body name acc : List Char),
    (∀ q < body.length, leadsWith (toFull name) ((body ++ toFull name).drop q) = false) →
    tryG2 name acc (body ++ toFull name) = some (acc ++ body, []) := by
  intro body
  induction body with
  | nil =>
    intro name acc _
    rw [List.nil_append]
    unfold tryG2
    rw [leadsWith_refl]
    simp
  | cons c body' ih =>
    intro name acc h
    have h0 : leadsWith (toFull name) ((c :: body') ++ toFull name) = false := by
      have := h 0 (by simp)
      simpa using this
    unfold tryG2
    rw [show (c :: body') ++ toFull name = c :: (body' ++ toFull name) by simp] at h0 ⊢
    rw [h0]
    simp only
    rw [ih name (acc ++ [c]) (fun q hq => by
      have := h (q + 1) (by simp; omega)
      simpa using this)]
    simp

theorem tryG1_through_name : ∀ (mid acc rest2 : List Char)
    (r : List Char × List Char),
    (∀ c ∈ mid, c ≠ cbr) →
    tryG2 (acc ++ mid) [] rest2 = some r →
    tryG1 acc (mid ++ cbr :: rest2) = some (acc ++ mid, r.1, r.2) := by
  intro mid
  induction mid with
  | nil =>
    intro acc rest2 r _ h2
    rw [List.nil_append]
    unfold tryG1
    rw [if_pos (by simp)]
    rw [List.append_nil] at h2
    rw [h2]
    simp
  | cons m mid' ih =>
    intro acc rest2 r hm h2
    have hmne : (m == cbr) = false := by
      simp only [beq_eq_false_iff_ne]
      exact hm m (by simp)
    rw [show (m :: mid') ++ cbr :: rest2 = m :: (mid' ++ cbr :: rest2) by simp]
    unfold tryG1
    rw [hmne]
    simp only [Bool.false_eq_true, if_false]
    have := ih (acc ++ [m]) rest2 r (fun c hc => hm c (by simp [hc]))
      (by rw [show (acc ++ [m]) ++ mid' = acc ++ (m :: mid') by simp]; exact h2)
    rw [this]
    simp

theorem pyStrip_newline_wrap (content : List Char) :
    pyStrip ('\n' :: (content ++ ['\n'])) = pyStrip content := by
  unfold pyStrip
  rw [List.dropWhile_cons]
  rw [if_pos (by decide : pyWs '\n' = true)]
  rw [List.dropWhile_append]
  by_cases h : (List.dropWhile pyWs content).isEmpty
  · rw [if_pos h]
    rw [List.isEmpty_iff] at h
    rw [h]
    rfl
  · rw [if_neg h]
    rw [List.reverse_append]
    simp only [List.reverse_cons, List.reverse_nil, List.nil_append, List.singleton_append]
    rw [List.dropWhile_cons]
    rw [if_pos (by decide : pyWs '\n' = true)]

/-- C2: extracting from a wrapped document returns exactly the singleton
`[(name, content.strip())]`, provided the name contains no `}` and the body
region `"\n" ++ content ++ "\n"` has no early occurrence of the closing
sentinel `{\comment tex2rtf/to: name}` (the no-nested-sentinel-collision
hypothesis). -/
theorem extract_roundtrip (content name : List Char)
    (hname : cbr ∉ name)
    (hcoll : noMidOccB (toFull name) ('\n' :: (content ++ ['\n'])) = true) :
    extract_rtf_content (prepend_append_rtf content name)
      = [(name, pyStrip content)] := by
  have hw : prepend_append_rtf content name
      = fromLit ++ (name ++ cbr :: (('\n' :: (content ++ ['\n'])) ++ toFull name)) := by
    unfold prepend_append_rtf toFull
    simp
  unfold extract_rtf_content
  rw [hw]
  have hlen : (fromLit ++ (name ++ cbr :: (('\n' :: (content ++ ['\n'])) ++ toFull name))).length
      = (fromLit ++ (name ++ cbr :: (('\n' :: (content ++ ['\n'])) ++ toFull name))).length := rfl
  have htm : tryMatch (fromLit ++ (name ++ cbr :: (('\n' :: (content ++ ['\n'])) ++ toFull name)))
      = some (name, '\n' :: (content ++ ['\n']), []) := by
    unfold tryMatch
    rw [leadsWith_append_self]
    simp only [if_true]
    rw [List.drop_left]
    have hg2 : tryG2 ([] ++ name) [] (('\n' :: (content ++ ['\n'])) ++ toFull name)
        = some ('\n' :: (content ++ ['\n']), []) := by
      rw [List.nil_append]
      have := tryG2_complete ('\n' :: (content ++ ['\n'])) name []
        ((noMidOccB_iff _ _).mp hcoll)
      rw [this]
      simp
    have := tryG1_through_name name [] (('\n' :: (content ++ ['\n'])) ++ toFull name)
      ('\n' :: (content ++ ['\n']), []) (fun c hc h => hname (h ▸ hc)) hg2
    rw [this]
    simp
  cases hfl : fromLit ++ (name ++ cbr :: (('\n' :: (content ++ ['\n'])) ++ toFull name)) with
  | nil => simp [fromLit] at hfl
  | cons c t =>
    have hlen2 : (c :: t).length = t.length + 1 := by simp
    rw [hlen2]
    unfold findAllAux
    rw [← hfl, htm]
    simp only
    rw [findAllAux_nil]
    simp only [List.map_cons, List.map_nil]
    rw [pyStrip_newline_wrap]

/-- C2 witness: a concrete round trip. -/
theorem extract_roundtrip_witness :
    extract_rtf_content (prepend_append_rtf (" Hi there ".toList) ("a.tex".toList))
      = [("a.tex".toList, pyStrip (" Hi there ".toList))] :=
  extract_roundtrip (" Hi there ".toList) ("a.tex".toList) (by decide) (by decide)

/-! ## C3: what `find_string` really returns -/

theorem findOcc_le_length : ∀ (s pat : List Char) (k : Nat),
    findOcc s pat = some k → k ≤ s.length := by
  intro s
  induction s with
  | nil =>
    intro pat k h
    by_cases hl : leadsWith pat [] = true
    · simp [findOcc, hl] at h; omega
    · simp [findOcc, Bool.eq_false_iff.mpr hl] at h
  | cons c t ih =>
    intro pat k h
    cases hl : leadsWith pat (c :: t)
    · rw [findOcc_cons_neg hl] at h
      cases hfo : findOcc t pat with
      | none => rw [hfo] at h; simp at h
      | some k' =>
        rw [hfo] at h
        simp at h
        have := ih pat k' hfo
        simp
        omega
    · rw [findOcc_pos hl] at h
      injection h with h
      omega

theorem rfindOcc_le_length : ∀ (s pat : List Char) (k : Nat),
    rfindOcc s pat = some k → k ≤ s.length := by
  intro s
  induction s with
  | nil =>
    intro pat k h
    by_cases hl : leadsWith pat [] = true
    · simp [rfindOcc, hl] at h; omega
    · simp [rfindOcc, Bool.eq_false_iff.mpr hl] at h
  | cons c t ih =>
    intro pat k h
    cases hro : rfindOcc t pat with
    | some k' =>
      simp [rfindOcc, hro] at h
      have := ih pat k' hro
      simp
      omega
    | none =>
      cases hl : leadsWith pat (c :: t)
      · simp [rfindOcc, hro, hl] at h
      · simp [rfindOcc, hro, hl] at h
        omega

theorem pyFind_zero (w pat : List Char) : pyFind w pat 0 =
    (match findOcc w pat with
     | some k => ((k : Nat) : Int)
     | none => -1) := by
  unfold pyFind
  rw [show pyAdjLo w.length (0 : Int) = (0 : Nat) from pyAdjLo_nat (Nat.zero_le _)]
  rw [List.drop_zero]
  cases findOcc w pat <;> simp

theorem pyFind_nat_eq (w pat : List Char) (st : Nat) (hst : st ≤ w.length) :
    pyFind w pat (st : Int) =
    (match findOcc (w.drop st) pat with
     | some k => ((st + k : Nat) : Int)
     | none => -1) := by
  unfold pyFind
  rw [pyAdjLo_nat hst]

theorem pyRFind_zero_nat (w pat : List Char) (en : Nat) (hen : en ≤ w.length) :
    pyRFind w pat 0 (en : Int) =
    (match rfindOcc (w.take en) pat with
     | some k => ((k : Nat) : Int)
     | none => -1) := by
  unfold pyRFind
  rw [show pyAdjLo w.length (0 : Int) = (0 : Nat) from pyAdjLo_nat (Nat.zero_le _)]
  rw [pyAdjLo_nat hen, List.drop_zero]
  cases rfindOcc (w.take en) pat <;> simp

/-- C3 (amended): when `find_string` succeeds with `(a, b)`, `a` is the
nearest `{` STRICTLY before the first occurrence of the search string, and
`b` is one past the FIRST `}` at or after that occurrence — the first `}`
found by a plain forward character search, with no depth counting, so a `}`
closing a nested sub-group is taken.  (`none` exactly when the search string,
such a `{`, or such a `}` does not exist.) -/
theorem find_string_first_close (content string : List Char) (a b : Nat)
    (h : find_string content string = some (a, b)) :
    ∃ si eb : Nat,
      b = eb + 1 ∧
      leadsWith string (content.drop si) = true ∧
      (∀ j < si, leadsWith string (content.drop j) = false) ∧
      a < si ∧
      leadsWith [obr] (content.drop a) = true ∧
      (∀ j, a < j → j < si → leadsWith [obr] (content.drop j) = false) ∧
      si ≤ eb ∧
      leadsWith [cbr] (content.drop eb) = true ∧
      (∀ j, si ≤ j → j < eb → leadsWith [cbr] (content.drop j) = false) := by
  simp only [find_string] at h
  cases hfo : findOcc content string with
  | none =>
    rw [pyFind_zero, hfo] at h
    simp at h
  | some si =>
    rw [pyFind_zero, hfo] at h
    rw [if_pos (show ((si : Nat) : Int) ≠ -1 by omega)] at h
    have hsilen : si ≤ content.length := findOcc_le_length content string si hfo
    obtain ⟨hsi1, hsi2⟩ := findOcc_some_spec content string si hfo
    rw [pyRFind_zero_nat content [obr] si hsilen] at h
    cases hro : rfindOcc (content.take si) [obr] with
    | none =>
      rw [hro] at h
      simp at h
    | some ka =>
      rw [hro] at h
      rw [pyFind_nat_eq content [cbr] si hsilen] at h
      cases hfc : findOcc (content.drop si) [cbr] with
      | none =>
        rw [hfc] at h
        simp at h
      | some kb =>
        rw [hfc] at h
        rw [if_pos (by constructor <;> omega :
          ((ka : Nat) : Int) ≠ -1 ∧ ((si + kb : Nat) : Int) ≠ -1)] at h
        simp only [Int.toNat_ofNat, Option.some_inj, Prod.mk.injEq] at h
        obtain ⟨ha, hb⟩ := h
        subst ha
        subst hb
        obtain ⟨hka1, hka2⟩ := rfindOcc_some_spec (content.take si) [obr] ka
          (by simp) hro
        obtain ⟨hkb1, hkb2⟩ := findOcc_some_spec (content.drop si) [cbr] kb hfc
        have hkalen : ka ≤ (content.take si).length :=
          rfindOcc_le_length (content.take si) [obr] ka hro
        have hain : ka < si := by
          have hlen := leadsWith_length hka1
          simp [List.length_drop, List.length_take] at hlen hkalen
          omega
        have htod : ∀ j, j < si →
            leadsWith [obr] ((content.take si).drop j) = leadsWith [obr] (content.drop j) := by
          intro j hj
          apply leadsWith_congr_take
          rw [List.drop_take]
          rw [List.take_take]
          congr 1
          rw [inf_eq_left]
          simp
          omega
        refine ⟨si, si + kb, by omega, hsi1, hsi2, hain, ?_, ?_, by omega, ?_, ?_⟩
        · rw [← htod ka hain]; exact hka1
        · intro j hj1 hj2
          rw [← htod j hj2]
          exact hka2 j hj1
        · rw [← List.drop_drop]
          exact hkb1
        · intro j hj1 hj2
          have : content.drop j = (content.drop si).drop (j - si) := by
            rw [List.drop_drop]
            congr 1
            omega
          rw [this]
          exact hkb2 (j - si) (by omega)

/-- C3 witness: on `{a}` with search string `a`, `find_string` yields
`(0, 3)` and the characterization applies. -/
theorem find_string_first_close_witness :
    ∃ si eb : Nat,
      3 = eb + 1 ∧
      leadsWith ['a'] ((obr :: 'a' :: cbr :: []).drop si) = true ∧
      (∀ j < si, leadsWith ['a'] ((obr :: 'a' :: cbr :: []).drop j) = false) ∧
      0 < si ∧
      leadsWith [obr] ((obr :: 'a' :: cbr :: []).drop 0) = true ∧
      (∀ j, 0 < j → j < si → leadsWith [obr] ((obr :: 'a' :: cbr :: []).drop j) = false) ∧
      si ≤ eb ∧
      leadsWith [cbr] ((obr :: 'a' :: cbr :: []).drop eb) = true ∧
      (∀ j, si ≤ j → j < eb → leadsWith [cbr] ((obr :: 'a' :: cbr :: []).drop j) = false) :=
  find_string_first_close (obr :: 'a' :: cbr :: []) ['a'] 0 3 (by decide)

/-! ## C1: what `split ∘ concat` produces -/

theorem pyLines_cons_eq (c : Char) (t : List Char) :
    pyLines (c :: t) = if c == '\n' then [] :: pyLines t
      else match pyLines t with
        | l :: ls => (c :: l) :: ls
        | [] => [[c]] := rfl

theorem splitLoop_nil_eq (acc cur : List (List Char)) :
    splitLoop [] acc cur = if cur.isEmpty then acc else acc ++ [joinNL cur] := rfl

theorem splitLoop_cons_eq (line : List Char) (rest acc cur : List (List Char)) :
    splitLoop (line :: rest) acc cur =
      if (findOcc line markTok).isSome then
        splitLoop rest (if cur.isEmpty then acc else acc ++ [joinNL cur]) []
      else splitLoop rest acc (cur ++ [line]) := rfl

theorem pyLines_ne_nil : ∀ x : List Char, pyLines x ≠ [] := by
  intro x
  cases x with
  | nil => simp [pyLines]
  | cons c t =>
    rw [pyLines_cons_eq]
    by_cases h : c == '\n'
    · simp [h]
    · simp only [h, Bool.false_eq_true, if_false]
      cases pyLines t <;> simp

theorem pyLines_append_newline : ∀ x y : List Char,
    pyLines (x ++ '\n' :: y) = pyLines x ++ pyLines y := by
  intro x
  induction x with
  | nil =>
    intro y
    rw [List.nil_append, pyLines_cons_eq]
    simp [pyLines]
  | cons c x' ih =>
    intro y
    rw [List.cons_append, pyLines_cons_eq, pyLines_cons_eq]
    by_cases h : c == '\n'
    · rw [if_pos h, if_pos h, ih y]
      rfl
    · rw [if_neg (by simpa using h), if_neg (by simpa using h)]
      rw [ih y]
      cases hx : pyLines x' with
      | nil => exact absurd hx (pyLines_ne_nil x')
      | cons l ls => simp

theorem pyLines_no_newline : ∀ m : List Char, '\n' ∉ m → pyLines m = [m] := by
  intro m
  induction m with
  | nil => intro _; rfl
  | cons c m' ih =>
    intro h
    rw [pyLines_cons_eq]
    have h1 : ¬(c == '\n') = true := by
      simp only [beq_iff_eq]
      intro e
      exact h (by simp [e])
    rw [if_neg h1]
    rw [ih (fun hm => h (List.mem_cons_of_mem c hm))]

theorem pyLines_line_append : ∀ (m y : List Char), '\n' ∉ m →
    pyLines (m ++ '\n' :: y) = m :: pyLines y := by
  intro m y h
  rw [pyLines_append_newline, pyLines_no_newline m h]
  rfl

theorem joinNL_cons_ne (l : List Char) (ls : List (List Char)) (h : ls ≠ []) :
    joinNL (l :: ls) = l ++ '\n' :: joinNL ls := by
  cases ls with
  | nil => exact absurd rfl h
  | cons l' ls' => rfl

theorem joinNL_pyLines : ∀ x : List Char, joinNL (pyLines x) = x := by
  intro x
  induction x with
  | nil => rfl
  | cons c t ih =>
    rw [pyLines_cons_eq]
    by_cases h : c == '\n'
    · rw [if_pos h]
      rw [joinNL_cons_ne [] (pyLines t) (pyLines_ne_nil t), ih]
      have : c = '\n' := by simpa using h
      rw [this]
      rfl
    · rw [if_neg h]
      cases hx : pyLines t with
      | nil => exact absurd hx (pyLines_ne_nil t)
      | cons l ls =>
        rw [hx] at ih
        cases ls with
        | nil =>
          simp only [joinNL] at ih ⊢
          rw [ih]
        | cons l2 ls2 =>
          rw [joinNL_cons_ne (c :: l) (l2 :: ls2) (by simp)]
          rw [joinNL_cons_ne l (l2 :: ls2) (by simp)] at ih
          rw [← ih]
          simp

theorem joinNL_empty_head (ls : List (List Char)) (h : ls ≠ []) :
    joinNL ([] :: ls) = '\n' :: joinNL ls := by
  rw [joinNL_cons_ne [] ls h]
  rfl

theorem joinNL_empty_last : ∀ ls : List (List Char), ls ≠ [] →
    joinNL (ls ++ [[]]) = joinNL ls ++ ['\n'] := by
  intro ls
  induction ls with
  | nil => intro h; exact absurd rfl h
  | cons l ls' ih =>
    intro _
    cases hl : ls' with
    | nil => rfl
    | cons a b =>
      rw [← hl]
      rw [List.cons_append]
      rw [joinNL_cons_ne l (ls' ++ [[]]) (by simp)]
      rw [joinNL_cons_ne l ls' (by simp [hl])]
      rw [ih (by simp [hl])]
      simp

theorem findOcc_nil_markTok : findOcc [] markTok = none := by decide

theorem splitLoop_clean_chunk : ∀ (L rest : List (List Char))
    (acc cur : List (List Char)),
    (∀ l ∈ L, findOcc l markTok = none) →
    splitLoop (L ++ rest) acc cur = splitLoop rest acc (cur ++ L) := by
  intro L
  induction L with
  | nil => intro rest acc cur _; simp
  | cons l L' ih =>
    intro rest acc cur h
    rw [List.cons_append, splitLoop_cons_eq]
    rw [h l (by simp)]
    simp only [Option.isSome_none, Bool.false_eq_true, if_false]
    rw [ih rest acc (cur ++ [l]) (fun x hx => h x (by simp [hx]))]
    simp

theorem splitLoop_marker (n : List Char) (tl acc cur : List (List Char)) :
    splitLoop ((markTok ++ n) :: tl) acc cur
      = splitLoop tl (if cur.isEmpty then acc else acc ++ [joinNL cur]) [] := by
  rw [splitLoop_cons_eq]
  rw [findOcc_pos (leadsWith_append_self markTok n)]
  rfl

theorem concat_tex_files_eq : ∀ (files : List (List Char × List Char)) (a : List Char),
    List.foldl (fun acc f => acc ++ ('\n' :: '\n' :: (markTok ++ f.1 ++ ['\n', '\n'])) ++ f.2) a files
      = a ++ List.flatten (files.map
          (fun f => ('\n' :: '\n' :: (markTok ++ f.1 ++ ['\n', '\n'])) ++ f.2)) := by
  intro files
  induction files with
  | nil => intro a; simp
  | cons f fs ih =>
    intro a
    rw [List.foldl_cons, ih]
    simp

theorem newline_not_mem_markTok : '\n' ∉ markTok := by decide

theorem expectedBuckets_cons2 (n c : List Char) (f2 : List Char × List Char)
    (rest : List (List Char × List Char)) :
    expectedBuckets ((n, c) :: f2 :: rest)
      = ('\n' :: (c ++ ['\n'])) :: expectedBuckets (f2 :: rest) := rfl

theorem concat_lines : ∀ (frags : List (List Char × List Char)), frags ≠ [] →
    (∀ p ∈ frags, '\n' ∉ p.1) →
    pyLines (List.flatten (frags.map
        (fun f => ('\n' :: '\n' :: (markTok ++ f.1 ++ ['\n', '\n'])) ++ f.2)))
      = [] :: [] :: tailLines frags := by
  intro frags
  induction frags with
  | nil => intro h _; exact absurd rfl h
  | cons f rest ih =>
    intro _ hnames
    obtain ⟨n, c⟩ := f
    have hM : '\n' ∉ markTok ++ n := by
      intro hmem
      rcases List.mem_append.mp hmem with h1 | h2
      · exact newline_not_mem_markTok h1
      · exact hnames (n, c) (by simp) h2
    cases rest with
    | nil =>
      simp only [List.map_cons, List.map_nil, List.flatten_cons, List.flatten_nil,
        List.append_nil]
      rw [show ('\n' :: '\n' :: (markTok ++ n ++ ['\n', '\n'])) ++ c
          = '\n' :: '\n' :: ((markTok ++ n) ++ '\n' :: ('\n' :: c)) by simp]
      rw [pyLines_cons_eq]
      simp only [beq_self_eq_true, if_true]
      rw [pyLines_cons_eq]
      simp only [beq_self_eq_true, if_true]
      rw [pyLines_line_append (markTok ++ n) ('\n' :: c) hM]
      rw [pyLines_cons_eq]
      simp only [beq_self_eq_true, if_true]
      rfl
    | cons f2 rest' =>
      have ih' := ih (by simp) (fun p hp => hnames p (by simp [hp]))
      simp only [List.map_cons, List.flatten_cons] at ih' ⊢
      rw [show (('\n' :: '\n' :: (markTok ++ n ++ ['\n', '\n'])) ++ c) ++
            ((('\n' :: '\n' :: (markTok ++ f2.1 ++ ['\n', '\n'])) ++ f2.2) ++
              List.flatten (rest'.map
                (fun f => ('\n' :: '\n' :: (markTok ++ f.1 ++ ['\n', '\n'])) ++ f.2)))
          = '\n' :: '\n' :: ((markTok ++ n) ++ '\n' :: ('\n' :: (c ++ '\n' ::
              ('\n' :: ((markTok ++ f2.1 ++ ['\n', '\n']) ++ f2.2 ++
                List.flatten (rest'.map
                  (fun f => ('\n' :: '\n' :: (markTok ++ f.1 ++ ['\n', '\n'])) ++ f.2)))))))
          by simp]
      rw [pyLines_cons_eq]
      simp only [beq_self_eq_true, if_true]
      rw [pyLines_cons_eq]
      simp only [beq_self_eq_true, if_true]
      rw [pyLines_line_append (markTok ++ n) _ hM]
      rw [pyLines_cons_eq]
      simp only [beq_self_eq_true, if_true]
      rw [pyLines_append_newline c _]
      rw [pyLines_cons_eq]
      simp only [beq_self_eq_true, if_true]
      rw [show ('\n' :: '\n' :: (markTok ++ f2.1 ++ ['\n', '\n'])) ++ f2.2 ++
            List.flatten (rest'.map
              (fun f => ('\n' :: '\n' :: (markTok ++ f.1 ++ ['\n', '\n'])) ++ f.2))
          = '\n' :: '\n' :: ((markTok ++ f2.1 ++ ['\n', '\n']) ++ f2.2 ++
              List.flatten (rest'.map
                (fun f => ('\n' :: '\n' :: (markTok ++ f.1 ++ ['\n', '\n'])) ++ f.2)))
          by simp] at ih'
      rw [pyLines_cons_eq] at ih'
      simp only [beq_self_eq_true, if_true] at ih'
      rw [pyLines_cons_eq] at ih'
      simp only [beq_self_eq_true, if_true] at ih'
      have ih2 : pyLines ((markTok ++ f2.1 ++ ['\n', '\n']) ++ f2.2 ++
          List.flatten (rest'.map
            (fun f => ('\n' :: '\n' :: (markTok ++ f.1 ++ ['\n', '\n'])) ++ f.2)))
          = tailLines (f2 :: rest') := by
        simp only [List.cons.injEq, true_and] at ih'
        exact ih'
      rw [ih2]
      show [] :: [] :: ((markTok ++ n) :: [] :: (pyLines c ++ [] :: tailLines (f2 :: rest')))
        = [] :: [] :: tailLines ((n, c) :: f2 :: rest')
      rw [show tailLines ((n, c) :: f2 :: rest')
          = ((markTok ++ n) :: [] :: (pyLines c ++ [[]])) ++ tailLines (f2 :: rest') from rfl]
      simp

theorem splitLoop_tail : ∀ (frags : List (List Char × List Char)), frags ≠ [] →
    (∀ p ∈ frags, ∀ l ∈ pyLines p.2, findOcc l markTok = none) →
    ∀ acc cur : List (List Char),
    splitLoop (tailLines frags) acc cur
      = (if cur.isEmpty then acc else acc ++ [joinNL cur]) ++ expectedBuckets frags := by
  intro frags
  induction frags with
  | nil => intro h _; exact absurd rfl h
  | cons f rest ih =>
    intro _ hclean acc cur
    obtain ⟨n, c⟩ := f
    cases rest with
    | nil =>
      show splitLoop ((markTok ++ n) :: [] :: pyLines c) acc cur = _
      rw [splitLoop_marker]
      have hL : ∀ l ∈ ([] :: pyLines c), findOcc l markTok = none := by
        intro l hl
        rcases List.mem_cons.mp hl with h1 | h2
        · subst h1; exact findOcc_nil_markTok
        · exact hclean (n, c) (by simp) l h2
      rw [show ([] :: pyLines c : List (List Char))
          = ([] :: pyLines c) ++ [] by simp]
      rw [splitLoop_clean_chunk ([] :: pyLines c) [] _ [] hL]
      rw [splitLoop_nil_eq]
      rw [if_neg (by simp)]
      rw [List.nil_append]
      rw [joinNL_empty_head (pyLines c) (pyLines_ne_nil c)]
      rw [joinNL_pyLines]
      rfl
    | cons f2 rest' =>
      show splitLoop (((markTok ++ n) :: [] :: (pyLines c ++ [[]])) ++ tailLines (f2 :: rest'))
          acc cur = _
      rw [List.cons_append, List.cons_append]
      rw [splitLoop_marker]
      have hL : ∀ l ∈ ([] :: (pyLines c ++ [[]])), findOcc l markTok = none := by
        intro l hl
        rcases List.mem_cons.mp hl with h1 | h2
        · subst h1; exact findOcc_nil_markTok
        · rcases List.mem_append.mp h2 with h3 | h4
          · exact hclean (n, c) (by simp) l h3
          · rw [List.mem_singleton.mp h4]; exact findOcc_nil_markTok
      rw [show [] :: (pyLines c ++ [[]] ++ tailLines (f2 :: rest'))
          = ([] :: (pyLines c ++ [[]])) ++ tailLines (f2 :: rest') by simp]
      rw [splitLoop_clean_chunk ([] :: (pyLines c ++ [[]])) (tailLines (f2 :: rest')) _ [] hL]
      rw [List.nil_append]
      rw [ih (by simp) (fun p hp => hclean p (by simp [hp]))]
      rw [if_neg (by simp)]
      rw [joinNL_empty_head (pyLines c ++ [[]]) (by simp [pyLines_ne_nil c])]
      rw [joinNL_empty_last (pyLines c) (pyLines_ne_nil c)]
      rw [joinNL_pyLines]
      rw [expectedBuckets_cons2]
      simp

/-- C1 (amended): splitting the concatenation of a non-empty fragment list
(names newline-free, no content line containing the marker token) yields a
spurious leading whitespace-only bucket `"\n"` — flushed from the blank-line
separator before the first marker line — followed by exactly one bucket per
fragment in order, each equal to the fragment's content surrounded by the
separator newlines. -/
theorem split_concat_buckets (frags : List (List Char × List Char))
    (paths : List (List Char)) (hne : frags ≠ [])
    (hnames : ∀ p ∈ frags, '\n' ∉ p.1)
    (hclean : ∀ p ∈ frags, ∀ l ∈ pyLines p.2, findOcc l markTok = none) :
    (split_rtf_content (concat_tex_files frags) paths).1
      = ['\n'] :: expectedBuckets frags := by
  show splitLoop (pyLines (concat_tex_files frags)) [] [] = _
  unfold concat_tex_files
  rw [concat_tex_files_eq frags []]
  rw [List.nil_append]
  rw [concat_lines frags hne hnames]
  rw [show ([] :: [] :: tailLines frags : List (List Char))
      = [[], []] ++ tailLines frags by simp]
  rw [splitLoop_clean_chunk [[], []] (tailLines frags) [] []
    (by intro l hl; rcases List.mem_cons.mp hl with h1 | h2
        · subst h1; exact findOcc_nil_markTok
        · rw [List.mem_singleton.mp h2]; exact findOcc_nil_markTok)]
  rw [List.nil_append]
  rw [splitLoop_tail frags hne hclean]
  rw [if_neg (by simp)]
  rfl

/-- C1 witness: two concrete fragments. -/
theorem split_concat_buckets_witness :
    (split_rtf_content (concat_tex_files
        [("x.tex".toList, "Hello".toList), ("y.tex".toList, "World".toList)])
        ["x.tex".toList, "y.tex".toList]).1
      = ['\n'] :: expectedBuckets
          [("x.tex".toList, "Hello".toList), ("y.tex".toList, "World".toList)] :=
  split_concat_buckets
    [("x.tex".toList, "Hello".toList), ("y.tex".toList, "World".toList)]
    ["x.tex".toList, "y.tex".toList]
    (by decide) (by decide) (by decide)

/-! ## C7: the fill loop on disjoint slots -/

theorem find_string_eval {content string : List Char} {si ka kb : Nat}
    (h1 : findOcc content string = some si)
    (h2 : rfindOcc (content.take si) [obr] = some ka)
    (h3 : findOcc (content.drop si) [cbr] = some kb) :
    find_string content string = some (ka, si + kb + 1) := by
  simp only [find_string]
  rw [pyFind_zero, h1]
  rw [if_pos (show ((si : Nat) : Int) ≠ -1 by omega)]
  have hsilen := findOcc_le_length content string si h1
  rw [pyRFind_zero_nat content [obr] si hsilen, h2]
  rw [pyFind_nat_eq content [cbr] si hsilen, h3]
  rw [if_pos (by constructor <;> omega :
    ((ka : Nat) : Int) ≠ -1 ∧ ((si + kb : Nat) : Int) ≠ -1)]
  rw [Int.toNat_ofNat, Int.toNat_ofNat]

theorem noMid_single {c : Char} {a : List Char} (h : c ∉ a) :
    ∀ q < a.length, leadsWith [c] ((a ++ [c]).drop q) = false := by
  intro q hq
  rw [List.drop_append_of_le_length (le_of_lt hq)]
  cases hd : a.drop q with
  | nil =>
    exfalso
    have := congrArg List.length hd
    simp [List.length_drop] at this
    omega
  | cons x xs =>
    have hx : x ∈ a := by
      have : x ∈ a.drop q := by rw [hd]; simp
      exact List.drop_subset q a this
    have hxc : ¬(c == x) = true := by
      simp only [beq_iff_eq]
      intro e
      exact h (e ▸ hx)
    show leadsWith [c] (x :: (xs ++ [c])) = false
    simp [leadsWith, hxc]

/-- C7 (amended): for a template made of leading text and `n` disjoint slot
groups `{u_k ++ search ++ v_k}` with brace-free interiors, such that no
occurrence of the search string starts before each slot's designated one and
none survives in the filled text, `n` sequential fills never raise and the
result — the slots replaced wholesale by their replacements — contains zero
occurrences of the search string. -/
theorem fillLoop_disjoint_ok : ∀ (slots : List Slot) (search C : List Char),
    fillOkB search C slots = true →
    fillLoop search (slots.map Slot.r) (C ++ renderSlots search slots)
        = some (filledText C slots) ∧
      findOcc (filledText C slots) search = none := by
  intro slots
  induction slots with
  | nil =>
    intro search C h
    simp only [fillOkB, Option.isNone_iff_eq_none] at h
    simp only [List.map_nil, renderSlots, List.append_nil, filledText]
    exact ⟨rfl, h⟩
  | cons sl rest ih =>
    intro search C h
    simp only [fillOkB, Bool.and_eq_true, Bool.not_eq_true'] at h
    obtain ⟨⟨⟨⟨hu, hv⟩, hs⟩, hnm⟩, hrec⟩ := h
    have hu' : obr ∉ sl.u := by
      intro hm
      have hme := List.elem_iff.mpr hm
      rw [show List.elem obr sl.u = sl.u.contains obr from rfl, hu] at hme
      exact Bool.false_ne_true hme
    have hv' : cbr ∉ sl.v := by
      intro hm
      have hme := List.elem_iff.mpr hm
      rw [show List.elem cbr sl.v = sl.v.contains cbr from rfl, hv] at hme
      exact Bool.false_ne_true hme
    have hs' : cbr ∉ search := by
      intro hm
      have hme := List.elem_iff.mpr hm
      rw [show List.elem cbr search = search.contains cbr from rfl, hs] at hme
      exact Bool.false_ne_true hme
    have hT : C ++ renderSlots search (sl :: rest)
        = (C ++ obr :: sl.u) ++ (search ++ (sl.v ++ cbr :: (sl.t ++ renderSlots search rest))) := by
      show C ++ (obr :: (sl.u ++ search ++ sl.v ++ cbr :: sl.t) ++ renderSlots search rest) = _
      simp
    have hfo : findOcc (C ++ renderSlots search (sl :: rest)) search
        = some (C ++ obr :: sl.u).length := by
      rw [hT]
      exact findOcc_mid (C ++ obr :: sl.u) search _ ((noMidOccB_iff _ _).mp hnm)
    have hro : rfindOcc ((C ++ renderSlots search (sl :: rest)).take (C ++ obr :: sl.u).length) [obr]
        = some C.length := by
      rw [hT, List.take_left]
      exact rfindOcc_single_last C obr sl.u hu'
    have hfc : findOcc ((C ++ renderSlots search (sl :: rest)).drop (C ++ obr :: sl.u).length) [cbr]
        = some (search ++ sl.v).length := by
      rw [hT, List.drop_left]
      rw [show search ++ (sl.v ++ cbr :: (sl.t ++ renderSlots search rest))
          = (search ++ sl.v) ++ ([cbr] ++ (sl.t ++ renderSlots search rest)) by simp]
      exact findOcc_mid (search ++ sl.v) [cbr] _ (noMid_single (fun hm => by
        rcases List.mem_append.mp hm with h1 | h2
        · exact hs' h1
        · exact hv' h2))
    have hfs := find_string_eval hfo hro hfc
    simp only [List.map_cons]
    rw [show fillLoop search (sl.r :: rest.map Slot.r) (C ++ renderSlots search (sl :: rest))
        = (match find_string (C ++ renderSlots search (sl :: rest)) search with
           | none => none
           | some (a, b) => fillLoop search (rest.map Slot.r)
               ((C ++ renderSlots search (sl :: rest)).take a ++ sl.r ++
                 (C ++ renderSlots search (sl :: rest)).drop b))
        from rfl]
    rw [hfs]
    simp only
    have htk : (C ++ renderSlots search (sl :: rest)).take C.length = C :=
      List.take_left C _
    have hdr : (C ++ renderSlots search (sl :: rest)).drop
        ((C ++ obr :: sl.u).length + (search ++ sl.v).length + 1)
        = sl.t ++ renderSlots search rest := by
      rw [show C ++ renderSlots search (sl :: rest)
          = ((C ++ obr :: sl.u) ++ ((search ++ sl.v) ++ [cbr])) ++
            (sl.t ++ renderSlots search rest) by rw [hT]; simp]
      apply List.drop_left'
      simp [List.length_append]
      omega
    rw [htk, hdr]
    rw [show C ++ sl.r ++ (sl.t ++ renderSlots search rest)
        = (C ++ sl.r ++ sl.t) ++ renderSlots search rest by simp]
    have := ih search (C ++ sl.r ++ sl.t) hrec
    rw [show filledText C (sl :: rest) = filledText (C ++ sl.r ++ sl.t) rest from rfl]
    exact this

/-- C7 witness: a concrete two-slot template filled twice. -/
theorem fillLoop_disjoint_ok_witness :
    fillLoop ("PLACE".toList)
        (List.map Slot.r [⟨[], [], "-mid-".toList, "one".toList⟩,
          ⟨[], [], "-end".toList, "two".toList⟩])
        ("head:".toList ++ renderSlots ("PLACE".toList)
          [⟨[], [], "-mid-".toList, "one".toList⟩,
           ⟨[], [], "-end".toList, "two".toList⟩])
        = some (filledText ("head:".toList)
            [⟨[], [], "-mid-".toList, "one".toList⟩,
             ⟨[], [], "-end".toList, "two".toList⟩]) ∧
      findOcc (filledText ("head:".toList)
          [⟨[], [], "-mid-".toList, "one".toList⟩,
           ⟨[], [], "-end".toList, "two".toList⟩]) ("PLACE".toList) = none :=
  fillLoop_disjoint_ok
    [⟨[], [], "-mid-".toList, "one".toList⟩,
     ⟨[], [], "-end".toList, "two".toList⟩]
    ("PLACE".toList) ("head:".toList) (by decide)

/-! ## C5/C6: `fix_footnotes` on well-formed documents -/

theorem braceOk_cons_eq (c : Char) (t : List Char) (d : Nat) :
    braceOk (c :: t) d = if c == obr then braceOk t (d + 1)
      else if c == cbr then decide (0 < d) && braceOk t (d - 1)
      else braceOk t d := rfl

theorem braceOk_nobrace : ∀ (x : List Char) (d : Nat),
    (∀ c ∈ x, c ≠ obr ∧ c ≠ cbr) → braceOk x d = (d == 0) := by
  intro x
  induction x with
  | nil => intro d _; rfl
  | cons c t ih =>
    intro d h
    have hc := h c (by simp)
    rw [braceOk_cons_eq]
    rw [if_neg (by simpa using hc.1), if_neg (by simpa using hc.2)]
    exact ih d (fun a ha => h a (by simp [ha]))

theorem braceOk_append_left_nobrace : ∀ (x y : List Char) (d : Nat),
    (∀ c ∈ x, c ≠ obr ∧ c ≠ cbr) → braceOk (x ++ y) d = braceOk y d := by
  intro x
  induction x with
  | nil => intro y d _; rfl
  | cons c t ih =>
    intro y d h
    have hc := h c (by simp)
    rw [List.cons_append, braceOk_cons_eq]
    rw [if_neg (by simpa using hc.1), if_neg (by simpa using hc.2)]
    exact ih y d (fun a ha => h a (by simp [ha]))

theorem braceOk_append_right_nobrace : ∀ (y x : List Char) (d : Nat),
    (∀ c ∈ x, c ≠ obr ∧ c ≠ cbr) → braceOk (y ++ x) d = braceOk y d := by
  intro y
  induction y with
  | nil =>
    intro x d h
    rw [List.nil_append, braceOk_nobrace x d h]
    rfl
  | cons c t ih =>
    intro x d h
    rw [List.cons_append, braceOk_cons_eq, braceOk_cons_eq]
    by_cases h1 : c == obr
    · rw [if_pos h1, if_pos h1, ih x (d + 1) h]
    · rw [if_neg h1, if_neg h1]
      by_cases h2 : c == cbr
      · rw [if_pos h2, if_pos h2, ih x (d - 1) h]
      · rw [if_neg h2, if_neg h2, ih x d h]

theorem braceScanAux_exit : ∀ (z : List Char) (d : Nat) (r : List Char)
    (i ob cb : Nat), braceOk z d = true → ob = cb + d + 1 →
    braceScanAux (z ++ cbr :: r) i ob cb = some (i + z.length) := by
  intro z
  induction z with
  | nil =>
    intro d r i ob cb hok hob
    have hd : d = 0 := by simpa [braceOk] using hok
    subst hd
    rw [List.nil_append]
    simp only [braceScanAux, show (cbr == obr) = false by decide,
      show (cbr == cbr) = true by decide, Bool.false_eq_true, if_false, if_true]
    rw [if_pos (show (ob == cb + 1) = true by simp only [beq_iff_eq]; omega)]
    simp
  | cons c z' ih =>
    intro d r i ob cb hok hob
    rw [List.cons_append]
    by_cases h1 : (c == obr) = true
    · rw [braceOk_cons_eq, if_pos h1] at hok
      simp only [braceScanAux, h1, if_true]
      rw [if_neg (show ¬(ob + 1 == cb) = true by simp only [beq_iff_eq]; omega)]
      rw [ih (d + 1) r (i + 1) (ob + 1) cb hok (by omega)]
      simp
      omega
    · rw [braceOk_cons_eq, if_neg h1] at hok
      by_cases h2 : (c == cbr) = true
      · rw [if_pos h2] at hok
        simp only [Bool.and_eq_true, decide_eq_true_eq] at hok
        obtain ⟨hd, hok'⟩ := hok
        simp only [braceScanAux, eq_false_of_ne_true h1, h2, Bool.false_eq_true,
          if_false, if_true]
        rw [if_neg (show ¬(ob == cb + 1) = true by simp only [beq_iff_eq]; omega)]
        rw [ih (d - 1) r (i + 1) ob (cb + 1) hok' (by omega)]
        simp
        omega
      · rw [if_neg h2] at hok
        simp only [braceScanAux, eq_false_of_ne_true h1, eq_false_of_ne_true h2,
          Bool.false_eq_true, if_false, if_true]
        rw [if_neg (show ¬(ob == cb) = true by simp only [beq_iff_eq]; omega)]
        rw [ih d r (i + 1) ob cb hok (by omega)]
        simp
        omega

theorem digitChar_ne_braces (d : Nat) (hd : d < 10) :
    digitChar d ≠ obr ∧ digitChar d ≠ cbr := by
  interval_cases d <;> exact ⟨by decide, by decide⟩

theorem decAux_digits : ∀ (fuel n : Nat) (c : Char), c ∈ decAux fuel n →
    ∃ d, d < 10 ∧ c = digitChar d := by
  intro fuel
  induction fuel with
  | zero => intro n c h; simp [decAux] at h
  | succ fuel ih =>
    intro n c h
    unfold decAux at h
    by_cases hn : n = 0
    · rw [if_pos hn] at h; simp at h
    · rw [if_neg hn] at h
      rcases List.mem_cons.mp h with h1 | h2
      · exact ⟨n % 10, Nat.mod_lt n (by omega), h1⟩
      · exact ih (n / 10) c h2

theorem decRepr_no_braces (n : Nat) : obr ∉ decRepr n ∧ cbr ∉ decRepr n := by
  unfold decRepr
  by_cases hn : n = 0
  · rw [if_pos hn]
    exact ⟨by decide, by decide⟩
  · rw [if_neg hn]
    constructor
    · intro h
      rw [List.mem_reverse] at h
      obtain ⟨d, hd, he⟩ := decAux_digits n n obr h
      exact (digitChar_ne_braces d hd).1 he.symm
    · intro h
      rw [List.mem_reverse] at h
      obtain ⟨d, hd, he⟩ := decAux_digits n n cbr h
      exact (digitChar_ne_braces d hd).2 he.symm

theorem fsTok_no_braces (n : Nat) : obr ∉ fsTok n ∧ cbr ∉ fsTok n := by
  unfold fsTok
  constructor
  · intro h
    rcases List.mem_cons.mp h with h1 | h2
    · exact absurd h1 (by decide)
    rcases List.mem_cons.mp h2 with h3 | h4
    · exact absurd h3 (by decide)
    rcases List.mem_cons.mp h4 with h5 | h6
    · exact absurd h5 (by decide)
    · exact (decRepr_no_braces n).1 h6
  · intro h
    rcases List.mem_cons.mp h with h1 | h2
    · exact absurd h1 (by decide)
    rcases List.mem_cons.mp h2 with h3 | h4
    · exact absurd h3 (by decide)
    rcases List.mem_cons.mp h4 with h5 | h6
    · exact absurd h5 (by decide)
    · exact (decRepr_no_braces n).2 h6

theorem parTok_no_braces : ∀ c ∈ parTok, c ≠ obr ∧ c ≠ cbr := by decide

theorem fixBody_wellformed (fsT : List Char) (hfso : obr ∉ fsT) (hfsc : cbr ∉ fsT)
    (A : List Char) (f : Footnote) (R : List Char) (sms : Nat)
    (hsms : sms ≤ A.length)
    (hnm : ∀ q < (A.drop sms).length, leadsWith fnTok ((A.drop sms ++ fnTok).drop q) = false)
    (hok : fnOkB f = true) :
    fixBody fsT (A ++ renderFn f ++ R) sms
      = some (A ++ renderFnFixed fsT f ++ R,
              (A ++ renderFnFixed fsT f).length - 1, false) := by
  simp only [fnOkB, Bool.and_eq_true, Bool.not_eq_true'] at hok
  obtain ⟨⟨⟨hokc, hokm⟩, hokp⟩, hokb⟩ := hok
  have hokm' : obr ∉ f.mid := by
    intro hm
    have hme := List.elem_iff.mpr hm
    rw [show List.elem obr f.mid = f.mid.contains obr from rfl, hokm] at hme
    exact Bool.false_ne_true hme
  simp only [fixBody, renderFn, renderFnFixed, List.append_assoc, List.cons_append,
    List.singleton_append, List.nil_append]
  -- the working document in right-associated normal form
  have h1 : pyFind (A ++ (fnTok ++ (f.pre ++ (chftnTok ++ (f.mid ++ obr ::
      (f.body1 ++ (pardTok ++ (f.body2 ++ (parTok ++ cbr :: R))))))))) fnTok (sms : Int)
      = ((A.length : Nat) : Int) := by
    have hw : (A ++ (fnTok ++ (f.pre ++ (chftnTok ++ (f.mid ++ obr ::
        (f.body1 ++ (pardTok ++ (f.body2 ++ (parTok ++ cbr :: R))))))))).drop sms
        = A.drop sms ++ (fnTok ++ (f.pre ++ (chftnTok ++ (f.mid ++ obr ::
          (f.body1 ++ (pardTok ++ (f.body2 ++ (parTok ++ cbr :: R)))))))) :=
      List.drop_append_of_le_length hsms
    rw [pyFind_split (by simp; omega) hw hnm]
    congr 1
    rw [List.length_drop]
    omega
  rw [h1]
  rw [if_neg (show ¬((A.length : Nat) : Int) = -1 by omega)]
  have h2 : pyFind (A ++ (fnTok ++ (f.pre ++ (chftnTok ++ (f.mid ++ obr ::
      (f.body1 ++ (pardTok ++ (f.body2 ++ (parTok ++ cbr :: R))))))))) chftnTok
      ((A.length : Nat) : Int)
      = (((A.length + (fnTok.length + f.pre.length)) : Nat) : Int) := by
    have hw : (A ++ (fnTok ++ (f.pre ++ (chftnTok ++ (f.mid ++ obr ::
        (f.body1 ++ (pardTok ++ (f.body2 ++ (parTok ++ cbr :: R))))))))).drop A.length
        = (fnTok ++ f.pre) ++ (chftnTok ++ (f.mid ++ obr ::
          (f.body1 ++ (pardTok ++ (f.body2 ++ (parTok ++ cbr :: R)))))) := by
      rw [List.drop_left]
      simp
    rw [pyFind_split (by simp) hw ((noMidOccB_iff _ _).mp hokc)]
    congr 1
    simp
  rw [h2]
  rw [show (decide ((((A.length + (fnTok.length + f.pre.length)) : Nat) : Int) = -1)) = false
    from decide_eq_false (by omega)]
  -- the insertion of the first directive
  have h3 : pySliceTo (A ++ (fnTok ++ (f.pre ++ (chftnTok ++ (f.mid ++ obr ::
      (f.body1 ++ (pardTok ++ (f.body2 ++ (parTok ++ cbr :: R)))))))))
        (((A.length + (fnTok.length + f.pre.length)) : Nat) : Int) ++
      (fsT ++ pySliceFrom (A ++ (fnTok ++ (f.pre ++ (chftnTok ++ (f.mid ++ obr ::
      (f.body1 ++ (pardTok ++ (f.body2 ++ (parTok ++ cbr :: R)))))))))
        (((A.length + (fnTok.length + f.pre.length)) : Nat) : Int))
      = A ++ (fnTok ++ (f.pre ++ (fsT ++ (chftnTok ++ (f.mid ++ obr ::
        (f.body1 ++ (pardTok ++ (f.body2 ++ (parTok ++ cbr :: R))))))))) := by
    rw [pySliceTo_nat, pySliceFrom_nat]
    have hsplit : A ++ (fnTok ++ (f.pre ++ (chftnTok ++ (f.mid ++ obr ::
        (f.body1 ++ (pardTok ++ (f.body2 ++ (parTok ++ cbr :: R))))))))
        = (A ++ fnTok ++ f.pre) ++ (chftnTok ++ (f.mid ++ obr ::
          (f.body1 ++ (pardTok ++ (f.body2 ++ (parTok ++ cbr :: R)))))) := by simp
    rw [hsplit, List.take_left' (by simp), List.drop_left' (by simp)]
    simp
  rw [h3]
  -- locate the body's opening brace
  have h4 : pyFind (A ++ (fnTok ++ (f.pre ++ (fsT ++ (chftnTok ++ (f.mid ++ obr ::
      (f.body1 ++ (pardTok ++ (f.body2 ++ (parTok ++ cbr :: R)))))))))) [obr]
      (((A.length + (fnTok.length + f.pre.length)) : Nat) : Int)
      = (((A.length + (fnTok.length + f.pre.length) +
          (fsT.length + (chftnTok.length + f.mid.length))) : Nat) : Int) := by
    have hw : (A ++ (fnTok ++ (f.pre ++ (fsT ++ (chftnTok ++ (f.mid ++ obr ::
        (f.body1 ++ (pardTok ++ (f.body2 ++ (parTok ++ cbr :: R)))))))))).drop
          (A.length + (fnTok.length + f.pre.length))
        = (fsT ++ chftnTok ++ f.mid) ++ ([obr] ++
          (f.body1 ++ (pardTok ++ (f.body2 ++ (parTok ++ cbr :: R))))) := by
      rw [show A ++ (fnTok ++ (f.pre ++ (fsT ++ (chftnTok ++ (f.mid ++ obr ::
          (f.body1 ++ (pardTok ++ (f.body2 ++ (parTok ++ cbr :: R)))))))))
          = (A ++ fnTok ++ f.pre) ++ ((fsT ++ chftnTok ++ f.mid) ++ ([obr] ++
            (f.body1 ++ (pardTok ++ (f.body2 ++ (parTok ++ cbr :: R)))))) by simp]
      rw [List.drop_left' (by simp)]
    have hnobr : obr ∉ fsT ++ chftnTok ++ f.mid := by
      intro hm
      rcases List.mem_append.mp hm with hm1 | hm2
      · rcases List.mem_append.mp hm1 with hm3 | hm4
        · exact hfso hm3
        · exact absurd hm4 (by decide)
      · exact hokm' hm2
    rw [pyFind_split (by simp <;> omega) hw (noMid_single hnobr)]
    congr 1
    simp
  rw [h4]
  rw [show ((((A.length + (fnTok.length + f.pre.length) +
      (fsT.length + (chftnTok.length + f.mid.length))) : Nat) : Int) + 1)
      = (((A.length + (fnTok.length + f.pre.length) +
          (fsT.length + (chftnTok.length + f.mid.length)) + 1) : Nat) : Int) by push_cast; ring]
  -- locate the paragraph reset
  have h5 : pyFind (A ++ (fnTok ++ (f.pre ++ (fsT ++ (chftnTok ++ (f.mid ++ obr ::
      (f.body1 ++ (pardTok ++ (f.body2 ++ (parTok ++ cbr :: R)))))))))) pardTok
      (((A.length + (fnTok.length + f.pre.length) +
        (fsT.length + (chftnTok.length + f.mid.length)) + 1) : Nat) : Int)
      = (((A.length + (fnTok.length + f.pre.length) +
          (fsT.length + (chftnTok.length + f.mid.length)) + 1 + f.body1.length) : Nat) : Int) := by
    have hw : (A ++ (fnTok ++ (f.pre ++ (fsT ++ (chftnTok ++ (f.mid ++ obr ::
        (f.body1 ++ (pardTok ++ (f.body2 ++ (parTok ++ cbr :: R)))))))))).drop
          (A.length + (fnTok.length + f.pre.length) +
            (fsT.length + (chftnTok.length + f.mid.length)) + 1)
        = f.body1 ++ (pardTok ++ (f.body2 ++ (parTok ++ cbr :: R))) := by
      rw [show A ++ (fnTok ++ (f.pre ++ (fsT ++ (chftnTok ++ (f.mid ++ obr ::
          (f.body1 ++ (pardTok ++ (f.body2 ++ (parTok ++ cbr :: R)))))))))
          = (A ++ fnTok ++ f.pre ++ fsT ++ chftnTok ++ f.mid ++ [obr]) ++
            (f.body1 ++ (pardTok ++ (f.body2 ++ (parTok ++ cbr :: R)))) by simp]
      rw [List.drop_left' (by simp; omega)]
    rw [pyFind_split (by simp <;> omega) hw ((noMidOccB_iff _ _).mp hokp)]
  rw [h5]
  rw [show ((((A.length + (fnTok.length + f.pre.length) +
      (fsT.length + (chftnTok.length + f.mid.length)) + 1 + f.body1.length) : Nat) : Int) + 5)
      = (((A.length + (fnTok.length + f.pre.length) +
          (fsT.length + (chftnTok.length + f.mid.length)) + 1 + f.body1.length + 5) : Nat) : Int)
      by push_cast; ring]
  -- the insertion of the second directive
  have h6 : pySliceTo (A ++ (fnTok ++ (f.pre ++ (fsT ++ (chftnTok ++ (f.mid ++ obr ::
      (f.body1 ++ (pardTok ++ (f.body2 ++ (parTok ++ cbr :: R))))))))))
        (((A.length + (fnTok.length + f.pre.length) +
          (fsT.length + (chftnTok.length + f.mid.length)) + 1 + f.body1.length + 5) : Nat) : Int) ++
      (fsT ++ pySliceFrom (A ++ (fnTok ++ (f.pre ++ (fsT ++ (chftnTok ++ (f.mid ++ obr ::
      (f.body1 ++ (pardTok ++ (f.body2 ++ (parTok ++ cbr :: R))))))))))
        (((A.length + (fnTok.length + f.pre.length) +
          (fsT.length + (chftnTok.length + f.mid.length)) + 1 + f.body1.length + 5) : Nat) : Int))
      = A ++ (fnTok ++ (f.pre ++ (fsT ++ (chftnTok ++ (f.mid ++ obr ::
        (f.body1 ++ (pardTok ++ (fsT ++ (f.body2 ++ (parTok ++ cbr :: R)))))))))) := by
    rw [pySliceTo_nat, pySliceFrom_nat]
    have hsplit : A ++ (fnTok ++ (f.pre ++ (fsT ++ (chftnTok ++ (f.mid ++ obr ::
        (f.body1 ++ (pardTok ++ (f.body2 ++ (parTok ++ cbr :: R)))))))))
        = (A ++ fnTok ++ f.pre ++ fsT ++ chftnTok ++ f.mid ++ [obr] ++ f.body1 ++ pardTok) ++
          (f.body2 ++ (parTok ++ cbr :: R)) := by simp
    rw [hsplit, List.take_left' (by simp [pardTok]; omega), List.drop_left' (by simp [pardTok]; omega)]
    simp
  rw [h6]
  rw [Int.toNat_ofNat]
  -- the brace loop breaks at the body's closing brace
  have h7 : braceScan (A ++ (fnTok ++ (f.pre ++ (fsT ++ (chftnTok ++ (f.mid ++ obr ::
      (f.body1 ++ (pardTok ++ (fsT ++ (f.body2 ++ (parTok ++ cbr :: R)))))))))))
      (A.length + (fnTok.length + f.pre.length) +
        (fsT.length + (chftnTok.length + f.mid.length)) + 1 + f.body1.length + 5)
      = A.length + (fnTok.length + f.pre.length) +
        (fsT.length + (chftnTok.length + f.mid.length)) + 1 + f.body1.length + 5 +
        (fsT ++ f.body2 ++ parTok).length := by
    unfold braceScan
    have hdrop : (A ++ (fnTok ++ (f.pre ++ (fsT ++ (chftnTok ++ (f.mid ++ obr ::
        (f.body1 ++ (pardTok ++ (fsT ++ (f.body2 ++ (parTok ++ cbr :: R))))))))))).drop
          (A.length + (fnTok.length + f.pre.length) +
            (fsT.length + (chftnTok.length + f.mid.length)) + 1 + f.body1.length + 5)
        = (fsT ++ f.body2 ++ parTok) ++ cbr :: R := by
      rw [show A ++ (fnTok ++ (f.pre ++ (fsT ++ (chftnTok ++ (f.mid ++ obr ::
          (f.body1 ++ (pardTok ++ (fsT ++ (f.body2 ++ (parTok ++ cbr :: R))))))))))
          = (A ++ fnTok ++ f.pre ++ fsT ++ chftnTok ++ f.mid ++ [obr] ++ f.body1 ++ pardTok) ++
            ((fsT ++ f.body2 ++ parTok) ++ cbr :: R) by simp]
      rw [List.drop_left' (by simp [pardTok]; omega)]
    rw [hdrop]
    have hz : braceOk (fsT ++ f.body2 ++ parTok) 0 = true := by
      rw [show fsT ++ f.body2 ++ parTok = fsT ++ (f.body2 ++ parTok) by simp]
      rw [braceOk_append_left_nobrace fsT (f.body2 ++ parTok) 0
        (fun c hc => ⟨fun e => hfso (e ▸ hc), fun e => hfsc (e ▸ hc)⟩)]
      rw [braceOk_append_right_nobrace f.body2 parTok 0 parTok_no_braces]
      exact hokb
    rw [braceScanAux_exit (fsT ++ f.body2 ++ parTok) 0 R _ 1 0 hz rfl]
  rw [h7]
  -- the rfind locates the trailing \par
  have h8 : pyRFind (A ++ (fnTok ++ (f.pre ++ (fsT ++ (chftnTok ++ (f.mid ++ obr ::
      (f.body1 ++ (pardTok ++ (fsT ++ (f.body2 ++ (parTok ++ cbr :: R)))))))))))
      parTok
      (((A.length + (fnTok.length + f.pre.length)) : Nat) : Int)
      ((((A.length + (fnTok.length + f.pre.length) +
        (fsT.length + (chftnTok.length + f.mid.length)) + 1 + f.body1.length + 5 +
        (fsT ++ f.body2 ++ parTok).length) : Nat)) : Int)
      = (((A.length + (fnTok.length + f.pre.length) +
          ((fsT.length + (chftnTok.length + f.mid.length)) + 1 + f.body1.length + 5 +
            (fsT.length + f.body2.length))) : Nat) : Int) := by
    have htake : (A ++ (fnTok ++ (f.pre ++ (fsT ++ (chftnTok ++ (f.mid ++ obr ::
        (f.body1 ++ (pardTok ++ (fsT ++ (f.body2 ++ (parTok ++ cbr :: R))))))))))).take
        (A.length + (fnTok.length + f.pre.length) +
          (fsT.length + (chftnTok.length + f.mid.length)) + 1 + f.body1.length + 5 +
          (fsT ++ f.body2 ++ parTok).length)
        = A ++ fnTok ++ f.pre ++ fsT ++ chftnTok ++ f.mid ++ [obr] ++ f.body1 ++ pardTok ++
          fsT ++ f.body2 ++ parTok := by
      rw [show A ++ (fnTok ++ (f.pre ++ (fsT ++ (chftnTok ++ (f.mid ++ obr ::
          (f.body1 ++ (pardTok ++ (fsT ++ (f.body2 ++ (parTok ++ cbr :: R))))))))))
          = (A ++ fnTok ++ f.pre ++ fsT ++ chftnTok ++ f.mid ++ [obr] ++ f.body1 ++ pardTok ++
            fsT ++ f.body2 ++ parTok) ++ (cbr :: R) by simp]
      rw [List.take_left' (by simp [pardTok]; omega)]
    have hdrop2 : (A ++ fnTok ++ f.pre ++ fsT ++ chftnTok ++ f.mid ++ [obr] ++ f.body1 ++
        pardTok ++ fsT ++ f.body2 ++ parTok).drop (A.length + (fnTok.length + f.pre.length))
        = (fsT ++ chftnTok ++ f.mid ++ [obr] ++ f.body1 ++ pardTok ++ fsT ++ f.body2) ++ parTok := by
      rw [show A ++ fnTok ++ f.pre ++ fsT ++ chftnTok ++ f.mid ++ [obr] ++ f.body1 ++
          pardTok ++ fsT ++ f.body2 ++ parTok
          = (A ++ fnTok ++ f.pre) ++ ((fsT ++ chftnTok ++ f.mid ++ [obr] ++ f.body1 ++ pardTok ++
            fsT ++ f.body2) ++ parTok) by simp]
      rw [List.drop_left' (by simp)]
    rw [pyRFind_split (by simp [pardTok]; omega) (by simp [pardTok]; omega)
      (by rw [htake]; exact hdrop2) (by simp [parTok])]
    congr 1
    simp [pardTok]
    omega
  rw [h8]
  rw [show ((((A.length + (fnTok.length + f.pre.length) +
      ((fsT.length + (chftnTok.length + f.mid.length)) + 1 + f.body1.length + 5 +
        (fsT.length + f.body2.length))) : Nat) : Int) + 4)
      = (((A.length + (fnTok.length + f.pre.length) +
          ((fsT.length + (chftnTok.length + f.mid.length)) + 1 + f.body1.length + 5 +
            (fsT.length + f.body2.length)) + 4) : Nat) : Int) by push_cast; ring]
  -- the final deletion of the trailing \par
  have h9 : pySliceTo (A ++ (fnTok ++ (f.pre ++ (fsT ++ (chftnTok ++ (f.mid ++ obr ::
      (f.body1 ++ (pardTok ++ (fsT ++ (f.body2 ++ (parTok ++ cbr :: R)))))))))))
        (((A.length + (fnTok.length + f.pre.length) +
          ((fsT.length + (chftnTok.length + f.mid.length)) + 1 + f.body1.length + 5 +
            (fsT.length + f.body2.length))) : Nat) : Int) ++
      pySliceFrom (A ++ (fnTok ++ (f.pre ++ (fsT ++ (chftnTok ++ (f.mid ++ obr ::
      (f.body1 ++ (pardTok ++ (fsT ++ (f.body2 ++ (parTok ++ cbr :: R)))))))))))
        (((A.length + (fnTok.length + f.pre.length) +
          ((fsT.length + (chftnTok.length + f.mid.length)) + 1 + f.body1.length + 5 +
            (fsT.length + f.body2.length)) + 4) : Nat) : Int)
      = A ++ (fnTok ++ (f.pre ++ (fsT ++ (chftnTok ++ (f.mid ++ obr ::
        (f.body1 ++ (pardTok ++ (fsT ++ (f.body2 ++ cbr :: R))))))))) := by
    rw [pySliceTo_nat, pySliceFrom_nat]
    have hsplit : A ++ (fnTok ++ (f.pre ++ (fsT ++ (chftnTok ++ (f.mid ++ obr ::
        (f.body1 ++ (pardTok ++ (fsT ++ (f.body2 ++ (parTok ++ cbr :: R))))))))))
        = (A ++ fnTok ++ f.pre ++ fsT ++ chftnTok ++ f.mid ++ [obr] ++ f.body1 ++ pardTok ++
          fsT ++ f.body2) ++ (parTok ++ cbr :: R) := by simp
    rw [hsplit]
    rw [List.take_left' (by simp [pardTok]; omega)]
    rw [show ((A ++ fnTok ++ f.pre ++ fsT ++ chftnTok ++ f.mid ++ [obr] ++ f.body1 ++ pardTok ++
        fsT ++ f.body2) ++ (parTok ++ cbr :: R))
        = ((A ++ fnTok ++ f.pre ++ fsT ++ chftnTok ++ f.mid ++ [obr] ++ f.body1 ++ pardTok ++
          fsT ++ f.body2) ++ parTok) ++ (cbr :: R) by simp]
    rw [List.drop_left' (by simp [pardTok, parTok]; omega)]
    simp
  rw [h9]
  -- assemble: only the scan-position component still differs syntactically
  have l1 : fnTok.length = 9 := rfl
  have l2 : chftnTok.length = 6 := rfl
  have l3 : pardTok.length = 5 := rfl
  have l4 : parTok.length = 4 := rfl
  have hlen : A.length + (fnTok.length + f.pre.length) +
      (fsT.length + (chftnTok.length + f.mid.length)) + 1 + f.body1.length + 5 +
      (fsT ++ f.body2 ++ parTok).length - 4
      = (A ++ (fnTok ++ (f.pre ++ (fsT ++ (chftnTok ++ (f.mid ++ obr ::
          (f.body1 ++ (pardTok ++ (fsT ++ (f.body2 ++ [cbr])))))))))).length - 1 := by
    simp only [List.length_append, List.length_cons, List.length_singleton, List.length_nil, l1, l2, l3, l4]
    omega
  rw [hlen]

theorem findOcc_none_of_noMid {a pat : List Char} (hp : pat ≠ [])
    (hnm : ∀ q < a.length, leadsWith pat ((a ++ pat).drop q) = false) :
    findOcc a pat = none := by
  apply findOcc_none_of_all
  intro q
  by_cases hq : q < a.length
  · cases hl : leadsWith pat (a.drop q)
    · rfl
    · exfalso
      have hlen := leadsWith_length hl
      rw [List.length_drop] at hlen
      have heq : ((a ++ pat).drop q).take pat.length = (a.drop q).take pat.length := by
        rw [List.drop_append_of_le_length (by omega)]
        exact List.take_append_of_le_length (by rw [List.length_drop]; omega)
      have hcongr := leadsWith_congr_take (p := pat) heq
      rw [hnm q hq, hl] at hcongr
      exact Bool.noConfusion hcongr
  · apply leadsWith_false_of_short
    rw [List.length_drop]
    have : pat.length ≥ 1 := List.length_pos.mpr hp
    omega

theorem fixLoop_wellformed : ∀ (fs : List (Footnote × List Char)) (fsT : List Char),
    obr ∉ fsT → cbr ∉ fsT →
    ∀ fuel : Nat, fs.length < fuel →
    ∀ (A : List Char) (sms warn : Nat), sms ≤ A.length →
    (∀ q < (A.drop sms).length, leadsWith fnTok ((A.drop sms ++ fnTok).drop q) = false) →
    wfPairsB fs = true →
    fixLoopAux fsT fuel (A ++ renderTail fs) sms warn
      = some (A ++ renderTailFixed fsT fs, warn) := by
  intro fs
  induction fs with
  | nil =>
    intro fsT _ _ fuel hfuel A sms warn hsms hnm _
    cases fuel with
    | zero => omega
    | succ n =>
      show (match fixBody fsT (A ++ renderTail []) sms with
            | none => some (A ++ renderTail [], warn)
            | some (w', sms', b) => fixLoopAux fsT n w' sms' (warn + if b then 1 else 0))
          = some (A ++ renderTailFixed fsT [], warn)
      have hbody : fixBody fsT (A ++ renderTail []) sms = none := by
        simp only [fixBody, renderTail, List.append_nil]
        have hfind : pyFind A fnTok (sms : Int) = -1 := by
          apply pyFind_neg hsms
          exact findOcc_none_of_noMid (by decide) hnm
        rw [hfind]
        simp
      rw [hbody]
      rfl
  | cons p rest ih =>
    intro fsT hfso hfsc fuel hfuel A sms warn hsms hnm hwf
    obtain ⟨f, t⟩ := p
    cases fuel with
    | zero => simp at hfuel
    | succ n =>
      simp only [wfPairsB, Bool.and_eq_true] at hwf
      obtain ⟨⟨hokf, hnmt⟩, hwfr⟩ := hwf
      show (match fixBody fsT (A ++ renderTail ((f, t) :: rest)) sms with
            | none => some (A ++ renderTail ((f, t) :: rest), warn)
            | some (w', sms', b) => fixLoopAux fsT n w' sms' (warn + if b then 1 else 0))
          = some (A ++ renderTailFixed fsT ((f, t) :: rest), warn)
      have hshape : A ++ renderTail ((f, t) :: rest)
          = A ++ renderFn f ++ (t ++ renderTail rest) := by
        rw [show renderTail ((f, t) :: rest) = renderFn f ++ t ++ renderTail rest from rfl]
        simp
      rw [hshape]
      rw [fixBody_wellformed fsT hfso hfsc A f (t ++ renderTail rest) sms hsms hnm hokf]
      simp only [if_false, Bool.false_eq_true, Nat.add_zero]
      have hshape2 : A ++ renderFnFixed fsT f ++ (t ++ renderTail rest)
          = (A ++ renderFnFixed fsT f ++ t) ++ renderTail rest := by simp
      rw [hshape2]
      -- the fixed footnote ends in the closing brace: peel it off for the drop
      have hsplit : A ++ renderFnFixed fsT f ++ t
          = (A ++ (fnTok ++ f.pre ++ fsT ++ chftnTok ++ f.mid ++ [obr] ++ f.body1 ++
              pardTok ++ fsT ++ f.body2)) ++ (cbr :: t) := by
        simp [renderFnFixed]
      have hlen1 : (A ++ renderFnFixed fsT f).length - 1
          = (A ++ (fnTok ++ f.pre ++ fsT ++ chftnTok ++ f.mid ++ [obr] ++ f.body1 ++
              pardTok ++ fsT ++ f.body2)).length := by
        simp [renderFnFixed, List.length_append]
        omega
      have hdrop : (A ++ renderFnFixed fsT f ++ t).drop ((A ++ renderFnFixed fsT f).length - 1)
          = cbr :: t := by
        rw [hsplit, hlen1]
        exact List.drop_left _ _
      have := ih fsT hfso hfsc n (by simpa using hfuel)
        (A ++ renderFnFixed fsT f ++ t)
        ((A ++ renderFnFixed fsT f).length - 1) warn
        (by simp [renderFnFixed, List.length_append] <;> omega)
        (by rw [hdrop]; exact (noMidOccB_iff _ _).mp hnmt) hwfr
      rw [this]
      rw [show renderTailFixed fsT ((f, t) :: rest)
          = renderFnFixed fsT f ++ t ++ renderTailFixed fsT rest from rfl]
      simp

/-- C5: for every document whose footnote occurrences are all well formed
(`wfPairsB`) and every configured point size, `fix_footnotes` rewrites every
occurrence so that the footnote number anchor `\chftn` is immediately
preceded by the font-size directive `\fs(2*size)` and the body's `\pard` is
immediately followed by the same directive (`renderFnFixed` places `fsTok
(2*size)` exactly there), with no warnings. -/
theorem fix_footnotes_inserts_sizes (p0 : List Char) (fs : List (Footnote × List Char))
    (size : Nat) (hnm0 : noMidOccB fnTok p0 = true) (hwf : wfPairsB fs = true) :
    fix_footnotes (fs.length + 1) (renderDoc p0 fs) size
      = some (renderDocFixed (fsTok (2 * size)) p0 fs, 0) := by
  unfold fix_footnotes renderDoc renderDocFixed
  exact fixLoop_wellformed fs (fsTok (2 * size)) (fsTok_no_braces _).1 (fsTok_no_braces _).2
    (fs.length + 1) (by omega) p0 0 0 (Nat.zero_le _)
    (by simpa using (noMidOccB_iff _ _).mp hnm0) hwf

/-- C5 witness: one concrete well-formed footnote at point size 10. -/
theorem fix_footnotes_inserts_sizes_witness :
    fix_footnotes 2 (renderDoc ("Doc ".toList)
        [(⟨" a".toList, "b".toList, "c".toList, "d".toList⟩, " end".toList)]) 10
      = some (renderDocFixed (fsTok 20) ("Doc ".toList)
          [(⟨" a".toList, "b".toList, "c".toList, "d".toList⟩, " end".toList)], 0) :=
  fix_footnotes_inserts_sizes ("Doc ".toList)
    [(⟨" a".toList, "b".toList, "c".toList, "d".toList⟩, " end".toList)] 10
    (by decide) (by decide)

/-- C6: on the same well-formed documents, `fix_footnotes` removes exactly
one paragraph-break token per footnote body — the `\par` directly before the
body's closing brace (`renderFn` carries it, `renderFnFixed` does not) —
while `body2` (which may itself contain `\par` tokens) and all trailing text
are kept verbatim. -/
theorem fix_footnotes_removes_trailing_par (p0 : List Char)
    (fs : List (Footnote × List Char)) (size : Nat)
    (hnm0 : noMidOccB fnTok p0 = true) (hwf : wfPairsB fs = true) :
    fix_footnotes (fs.length + 1) (renderDoc p0 fs) size
      = some (p0 ++ renderTailFixed (fsTok (2 * size)) fs, 0) := by
  unfold fix_footnotes renderDoc
  exact fixLoop_wellformed fs (fsTok (2 * size)) (fsTok_no_braces _).1 (fsTok_no_braces _).2
    (fs.length + 1) (by omega) p0 0 0 (Nat.zero_le _)
    (by simpa using (noMidOccB_iff _ _).mp hnm0) hwf

/-- C6 witness: a body whose `body2` itself contains a `\par`, which is
preserved; only the trailing `\par` is removed. -/
theorem fix_footnotes_removes_trailing_par_witness :
    fix_footnotes 2 (renderDoc ("Text".toList)
        [(⟨" u".toList, "v".toList, "w".toList, " d\\par e".toList⟩, "!".toList)]) 10
      = some ("Text".toList ++ renderTailFixed (fsTok 20)
          [(⟨" u".toList, "v".toList, "w".toList, " d\\par e".toList⟩, "!".toList)], 0) :=
  fix_footnotes_removes_trailing_par ("Text".toList)
    [(⟨" u".toList, "v".toList, "w".toList, " d\\par e".toList⟩, "!".toList)] 10
    (by decide) (by decide)

/-! ## C9: divergence of `fix_footnotes` on a malformed brace-free tail -/

theorem fsRep_succ (k : Nat) : fsRep (k + 1) = fsTok 20 ++ fsRep k := rfl

theorem fsRep_mem : ∀ (k : Nat) (c : Char), c ∈ fsRep k → c ∈ fsTok 20 := by
  intro k
  induction k with
  | zero => intro c h; simp [fsRep] at h
  | succ k ih =>
    intro c h
    rw [fsRep_succ] at h
    rcases List.mem_append.mp h with h1 | h2
    · exact h1
    · exact ih c h2

theorem fsRep_length : ∀ k : Nat, (fsRep k).length = 5 * k := by
  intro k
  induction k with
  | zero => rfl
  | succ k ih =>
    rw [fsRep_succ, List.length_append, ih, show (fsTok 20).length = 5 from by decide]
    omega

theorem badPre_length (k : Nat) : (badPre k).length = 5 * k + 10 := by
  unfold badPre
  simp only [List.length_append, fsRep_length, List.length_cons, List.length_nil,
    show pardTok.length = 5 from by decide, show parTok.length = 4 from by decide]
  omega

theorem badPre_no_t (k : Nat) : 't' ∉ badPre k := by
  unfold badPre
  intro h
  rcases List.mem_append.mp h with h1 | h2
  · rcases List.mem_append.mp h1 with h3 | h4
    · exact absurd h3 (by decide)
    · exact absurd (fsRep_mem k _ h4) (by decide)
  · exact absurd h2 (by decide)

theorem fsRep_no_h (k : Nat) (h : 'h' ∈ fsRep k) : False :=
  absurd (fsRep_mem k _ h) (by decide)

/-- No occurrence of `\footnote` can start strictly inside a `t`-free prefix:
the pattern's character at offset `4` is a `t`, and the first four pattern
characters are not. -/
theorem no_fnTok_mid {P : List Char} (hP : 't' ∉ P) :
    ∀ q < P.length, leadsWith fnTok ((P ++ fnTok).drop q) = false := by
  intro q hq
  by_contra hcon
  rw [Bool.not_eq_false] at hcon
  rw [leadsWith_iff_take] at hcon
  have h4 : ((P ++ fnTok).drop q)[4]? = some 't' := by
    have htk : (((P ++ fnTok).drop q).take fnTok.length)[4]? = some 't' := by
      rw [hcon]; decide
    rw [List.getElem?_take, if_pos (by decide : (4:Nat) < fnTok.length)] at htk
    exact htk
  rw [List.getElem?_drop] at h4
  by_cases hcase : q + 4 < P.length
  · rw [List.getElem?_append, if_pos hcase] at h4
    exact hP (List.getElem?_mem h4)
  · rw [List.getElem?_append, if_neg hcase] at h4
    have hj : q + 4 - P.length ≤ 3 := by omega
    have h0 : q + 4 - P.length = 0 ∨ q + 4 - P.length = 1 ∨
        q + 4 - P.length = 2 ∨ q + 4 - P.length = 3 := by omega
    rcases h0 with h0 | h0 | h0 | h0 <;> rw [h0] at h4 <;> revert h4 <;> decide

/-- One pass of the `fix_footnotes` loop over the malformed document
`badPre k ++ "\footnote" ++ X' ++ [c]`: the missing `\chftn` makes `end = -1`,
the two insertions land at the end and after the leading `\pard`, the brace
scan stops at the stable `}`, and the `rfind`/slice deletion duplicates the
document tail — producing the same shape with `k+1` directives. -/
theorem fixBody_diverges (k : Nat) (X' : List Char) (c : Char) (sms : Nat)
    (hc : c ≠ obr) (hXh : 'h' ∉ X') (hch : c ≠ 'h') (hsms : sms ≤ 5 * k + 10) :
    fixBody (fsTok 20) (badPre k ++ fnTok ++ (X' ++ [c])) sms
      = some (badPre (k + 1) ++ fnTok ++
          (X' ++ fsTok 20 ++ ('r' :: 'd' :: (fsTok 20 ++ (fsRep k ++ (parTok ++ (cbr ::
            (fnTok ++ (X' ++ (fsTok 20 ++ [c]))))))))),
          5 * k + 10, true) := by
  have hblen : (badPre k).length = 5 * k + 10 := badPre_length k
  simp only [fixBody, badPre, fsRep_succ, List.append_assoc, List.cons_append,
    List.singleton_append, List.nil_append]
  have hWlen : (pardTok ++ (fsRep k ++ (parTok ++ (cbr :: (fnTok ++ (X' ++ [c])))))).length
      = 5 * k + 20 + X'.length := by
    simp only [List.length_append, List.length_cons, fsRep_length, List.length_nil,
      show pardTok.length = 5 from by decide, show parTok.length = 4 from by decide,
      show fnTok.length = 9 from by decide]
    omega
  have h1 : pyFind (pardTok ++ (fsRep k ++ (parTok ++ (cbr :: (fnTok ++ (X' ++ [c]))))))
      fnTok (sms : Int) = ((5 * k + 10 : Nat) : Int) := by
    have hw : (pardTok ++ (fsRep k ++ (parTok ++ (cbr :: (fnTok ++ (X' ++ [c])))))).drop sms
        = (badPre k).drop sms ++ (fnTok ++ (X' ++ [c])) := by
      rw [show pardTok ++ (fsRep k ++ (parTok ++ (cbr :: (fnTok ++ (X' ++ [c])))))
          = badPre k ++ (fnTok ++ (X' ++ [c])) from by simp [badPre]]
      exact List.drop_append_of_le_length (by omega)
    rw [pyFind_split (by rw [hWlen]; omega) hw
      (no_fnTok_mid (fun h => badPre_no_t k (List.drop_subset _ _ h)))]
    congr 1
    rw [List.length_drop, hblen]
    omega
  rw [h1]
  rw [if_neg (show ¬ ((5 * k + 10 : Nat) : Int) = -1 by omega)]
  have h2 : pyFind (pardTok ++ (fsRep k ++ (parTok ++ (cbr :: (fnTok ++ (X' ++ [c]))))))
      chftnTok ((5 * k + 10 : Nat) : Int) = -1 := by
    apply pyFind_neg (by rw [hWlen]; omega)
    rw [show pardTok ++ (fsRep k ++ (parTok ++ (cbr :: (fnTok ++ (X' ++ [c])))))
        = badPre k ++ (fnTok ++ (X' ++ [c])) from by simp [badPre]]
    rw [List.drop_left' hblen]
    refine findOcc_none_of_not_mem (show 'h' ∈ chftnTok from by decide) ?_
    simp only [List.mem_append, List.mem_singleton]
    push_neg
    exact ⟨by decide, hXh, fun h => hch h.symm⟩
  rw [h2]
  have h3 : pySliceTo (pardTok ++ (fsRep k ++ (parTok ++ (cbr :: (fnTok ++ (X' ++ [c]))))))
        (-1) ++ (fsTok 20 ++
      pySliceFrom (pardTok ++ (fsRep k ++ (parTok ++ (cbr :: (fnTok ++ (X' ++ [c])))))) (-1))
      = pardTok ++ (fsRep k ++ (parTok ++ (cbr :: (fnTok ++ (X' ++ (fsTok 20 ++ [c])))))) := by
    rw [pySliceTo_neg_one, pySliceFrom_neg_one]
    rw [show pardTok ++ (fsRep k ++ (parTok ++ (cbr :: (fnTok ++ (X' ++ [c])))))
        = (pardTok ++ (fsRep k ++ (parTok ++ (cbr :: (fnTok ++ X'))))) ++ [c] from by simp]
    rw [List.dropLast_concat]
    rw [show ((pardTok ++ (fsRep k ++ (parTok ++ (cbr :: (fnTok ++ X'))))) ++ [c]).length - 1
        = (pardTok ++ (fsRep k ++ (parTok ++ (cbr :: (fnTok ++ X'))))).length from by simp; omega]
    rw [List.drop_left]
    simp
  rw [h3]
  have h4 : pyFind (pardTok ++ (fsRep k ++ (parTok ++ (cbr ::
      (fnTok ++ (X' ++ (fsTok 20 ++ [c]))))))) [obr] (-1) = -1 := by
    unfold pyFind
    rw [pyAdjLo_neg_one]
    rw [show (pardTok ++ (fsRep k ++ (parTok ++ (cbr :: (fnTok ++ (X' ++ (fsTok 20 ++ [c]))))))).drop
        ((pardTok ++ (fsRep k ++ (parTok ++ (cbr :: (fnTok ++ (X' ++ (fsTok 20 ++ [c]))))))).length - 1)
        = [c] from by
      rw [show pardTok ++ (fsRep k ++ (parTok ++ (cbr :: (fnTok ++ (X' ++ (fsTok 20 ++ [c]))))))
          = (pardTok ++ (fsRep k ++ (parTok ++ (cbr :: (fnTok ++ (X' ++ fsTok 20)))))) ++ [c] from by simp]
      rw [show ((pardTok ++ (fsRep k ++ (parTok ++ (cbr :: (fnTok ++ (X' ++ fsTok 20)))))) ++ [c]).length - 1
          = (pardTok ++ (fsRep k ++ (parTok ++ (cbr :: (fnTok ++ (X' ++ fsTok 20)))))).length from by simp; omega]
      exact List.drop_left _ _]
    rw [findOcc_none_of_not_mem (show obr ∈ [obr] from by decide)
      (show obr ∉ [c] from by simp; exact Ne.symm hc)]
  rw [h4]
  rw [show ((-1 : Int) + 1) = ((0 : Nat) : Int) from by decide]
  have h5 : pyFind (pardTok ++ (fsRep k ++ (parTok ++ (cbr ::
      (fnTok ++ (X' ++ (fsTok 20 ++ [c]))))))) pardTok ((0 : Nat) : Int) = ((0 : Nat) : Int) := by
    have hw : (pardTok ++ (fsRep k ++ (parTok ++ (cbr ::
        (fnTok ++ (X' ++ (fsTok 20 ++ [c]))))))).drop 0
        = [] ++ (pardTok ++ (fsRep k ++ (parTok ++ (cbr ::
            (fnTok ++ (X' ++ (fsTok 20 ++ [c]))))))) := by simp
    rw [pyFind_split (Nat.zero_le _) hw (by intro q hq; simp at hq)]
    simp
  rw [h5]
  rw [show (((0 : Nat) : Int) + 5) = ((5 : Nat) : Int) from by decide]
  have h6 : pySliceTo (pardTok ++ (fsRep k ++ (parTok ++ (cbr ::
        (fnTok ++ (X' ++ (fsTok 20 ++ [c]))))))) ((5 : Nat) : Int) ++ (fsTok 20 ++
      pySliceFrom (pardTok ++ (fsRep k ++ (parTok ++ (cbr ::
        (fnTok ++ (X' ++ (fsTok 20 ++ [c]))))))) ((5 : Nat) : Int))
      = pardTok ++ (fsTok 20 ++ (fsRep k ++ (parTok ++ (cbr ::
          (fnTok ++ (X' ++ (fsTok 20 ++ [c]))))))) := by
    rw [pySliceTo_nat, pySliceFrom_nat]
    rw [List.take_left' (by decide), List.drop_left' (by decide)]
  rw [h6]
  have hbok : braceOk (fsTok 20 ++ (fsRep k ++ parTok)) 0 = true := by
    rw [braceOk_nobrace _ 0 ?_]
    · rfl
    · intro ch hm
      rcases List.mem_append.mp hm with h1m | h2m
      · exact (show ∀ x ∈ fsTok 20, x ≠ obr ∧ x ≠ cbr from by decide) ch h1m
      · rcases List.mem_append.mp h2m with h3m | h4m
        · exact (show ∀ x ∈ fsTok 20, x ≠ obr ∧ x ≠ cbr from by decide) ch (fsRep_mem k ch h3m)
        · exact parTok_no_braces ch h4m
  have h7 : braceScan (pardTok ++ (fsTok 20 ++ (fsRep k ++ (parTok ++ (cbr ::
      (fnTok ++ (X' ++ (fsTok 20 ++ [c])))))))) (((5 : Nat) : Int)).toNat = 5 * k + 14 := by
    rw [show (((5 : Nat) : Int)).toNat = 5 from rfl]
    unfold braceScan
    rw [show (pardTok ++ (fsTok 20 ++ (fsRep k ++ (parTok ++ (cbr ::
        (fnTok ++ (X' ++ (fsTok 20 ++ [c])))))))).drop 5
        = (fsTok 20 ++ (fsRep k ++ parTok)) ++ cbr ::
            (fnTok ++ (X' ++ (fsTok 20 ++ [c]))) from by
      rw [show pardTok ++ (fsTok 20 ++ (fsRep k ++ (parTok ++ (cbr ::
          (fnTok ++ (X' ++ (fsTok 20 ++ [c])))))))
          = pardTok ++ ((fsTok 20 ++ (fsRep k ++ parTok)) ++ cbr ::
              (fnTok ++ (X' ++ (fsTok 20 ++ [c])))) from by simp]
      exact List.drop_left' (by decide)]
    rw [braceScanAux_exit (fsTok 20 ++ (fsRep k ++ parTok)) 0 _ 5 1 0 hbok (by omega)]
    show 5 + (fsTok 20 ++ (fsRep k ++ parTok)).length = 5 * k + 14
    simp only [List.length_append, fsRep_length,
      show (fsTok 20).length = 5 from by decide, show parTok.length = 4 from by decide]
    omega
  rw [h7]
  have hW2len : (pardTok ++ (fsTok 20 ++ (fsRep k ++ (parTok ++ (cbr ::
      (fnTok ++ (X' ++ (fsTok 20 ++ [c])))))))).length = 5 * k + 30 + X'.length := by
    simp only [List.length_append, List.length_cons, fsRep_length, List.length_nil,
      show pardTok.length = 5 from by decide, show parTok.length = 4 from by decide,
      show fnTok.length = 9 from by decide, show (fsTok 20).length = 5 from by decide]
    omega
  have h8 : pyRFind (pardTok ++ (fsTok 20 ++ (fsRep k ++ (parTok ++ (cbr ::
      (fnTok ++ (X' ++ (fsTok 20 ++ [c])))))))) parTok (-1) ((5 * k + 14 : Nat) : Int)
      = -1 := by
    apply pyRFind_of_empty_slice (by decide)
    rw [pyAdjLo_neg_one, pyAdjLo_nat (by rw [hW2len]; omega), hW2len]
    omega
  rw [h8]
  rw [show ((-1 : Int) + 4) = ((3 : Nat) : Int) from by decide]
  have hdl : (pardTok ++ (fsTok 20 ++ (fsRep k ++ (parTok ++ (cbr ::
      (fnTok ++ (X' ++ (fsTok 20 ++ [c])))))))).dropLast
      = pardTok ++ (fsTok 20 ++ (fsRep k ++ (parTok ++ (cbr ::
          (fnTok ++ (X' ++ fsTok 20)))))) := by
    rw [show pardTok ++ (fsTok 20 ++ (fsRep k ++ (parTok ++ (cbr ::
        (fnTok ++ (X' ++ (fsTok 20 ++ [c])))))))
        = (pardTok ++ (fsTok 20 ++ (fsRep k ++ (parTok ++ (cbr ::
            (fnTok ++ (X' ++ fsTok 20))))))) ++ [c] from by simp]
    exact List.dropLast_concat
  have hd3 : (pardTok ++ (fsTok 20 ++ (fsRep k ++ (parTok ++ (cbr ::
      (fnTok ++ (X' ++ (fsTok 20 ++ [c])))))))).drop 3
      = 'r' :: 'd' :: (fsTok 20 ++ (fsRep k ++ (parTok ++ (cbr ::
          (fnTok ++ (X' ++ (fsTok 20 ++ [c]))))))) := by
    rw [show pardTok ++ (fsTok 20 ++ (fsRep k ++ (parTok ++ (cbr ::
        (fnTok ++ (X' ++ (fsTok 20 ++ [c])))))))
        = '\\' :: 'p' :: 'a' :: 'r' :: 'd' :: (fsTok 20 ++ (fsRep k ++ (parTok ++ (cbr ::
            (fnTok ++ (X' ++ (fsTok 20 ++ [c]))))))) from by
      rw [show pardTok = '\\' :: 'p' :: 'a' :: 'r' :: 'd' :: [] from by decide]
      simp]
    rfl
  have h9 : pySliceTo (pardTok ++ (fsTok 20 ++ (fsRep k ++ (parTok ++ (cbr ::
        (fnTok ++ (X' ++ (fsTok 20 ++ [c])))))))) (-1) ++
      pySliceFrom (pardTok ++ (fsTok 20 ++ (fsRep k ++ (parTok ++ (cbr ::
        (fnTok ++ (X' ++ (fsTok 20 ++ [c])))))))) ((3 : Nat) : Int)
      = (pardTok ++ (fsTok 20 ++ (fsRep k ++ (parTok ++ (cbr ::
          (fnTok ++ (X' ++ fsTok 20))))))) ++
        ('r' :: 'd' :: (fsTok 20 ++ (fsRep k ++ (parTok ++ (cbr ::
          (fnTok ++ (X' ++ (fsTok 20 ++ [c])))))))) := by
    rw [pySliceTo_neg_one, pySliceFrom_nat, hdl, hd3]
  rw [h9]
  simp only [Prod.mk.injEq, Option.some.injEq]
  refine ⟨by simp, by omega, by decide⟩

/-- The bad-shape invariant is preserved by every loop iteration (and the
iteration returns `some`, so the loop never exits). -/
theorem fixBody_bad_inv (w : List Char) (sms : Nat) (h : BadInv w sms) :
    ∃ w' sms', fixBody (fsTok 20) w sms = some (w', sms', true) ∧ BadInv w' sms' := by
  obtain ⟨k, X, hw, hsms, hXh, hne, hlast⟩ := h
  rcases List.eq_nil_or_concat X with rfl | ⟨X', c, hX⟩
  · exact absurd rfl hne
  rw [List.concat_eq_append] at hX
  subst hX
  subst hw
  have hc : c ≠ obr := by
    rw [List.getLast?_concat] at hlast
    exact fun h => hlast (by rw [h])
  have hXh' : 'h' ∉ X' := fun h => hXh (by simp [h])
  have hch : c ≠ 'h' := fun h => hXh (by simp [h])
  refine ⟨_, _, fixBody_diverges k X' c sms hc hXh' hch (by omega), ?_⟩
  refine ⟨k + 1, _, rfl, Or.inl (by omega), ?_, ?_, ?_⟩
  · intro hmem
    have hfs : 'h' ∉ fsTok 20 := by decide
    have hfn : 'h' ∉ fnTok := by decide
    have hpt : 'h' ∉ parTok := by decide
    have hrep : 'h' ∉ fsRep k := fsRep_no_h k
    have hcne : ¬ ('h' : Char) = c := fun h => hch h.symm
    have hr : ¬ ('h' : Char) = 'r' := by decide
    have hd : ¬ ('h' : Char) = 'd' := by decide
    have hcb : ¬ ('h' : Char) = cbr := by decide
    simp [hXh', hfs, hfn, hpt, hrep, hcne, hr, hd, hcb] at hmem
  · simp
  · rw [show X' ++ fsTok 20 ++ ('r' :: 'd' :: (fsTok 20 ++ (fsRep k ++ (parTok ++ (cbr ::
        (fnTok ++ (X' ++ (fsTok 20 ++ [c]))))))))
        = (X' ++ fsTok 20 ++ ('r' :: 'd' :: (fsTok 20 ++ (fsRep k ++ (parTok ++ (cbr ::
            (fnTok ++ (X' ++ fsTok 20)))))))) ++ [c] from by simp]
    rw [List.getLast?_concat]
    simpa using hc

/-- With the invariant in force, no amount of fuel makes the loop exit. -/
theorem fixLoopAux_diverges : ∀ (fuel : Nat) (w : List Char) (sms warn : Nat),
    BadInv w sms → fixLoopAux (fsTok 20) fuel w sms warn = none := by
  intro fuel
  induction fuel with
  | zero => intro w sms warn _; rfl
  | succ n ih =>
    intro w sms warn h
    obtain ⟨w', sms', hstep, hinv⟩ := fixBody_bad_inv w sms h
    show (match fixBody (fsTok 20) w sms with
          | none => some (w, warn)
          | some (w', sms', b) => fixLoopAux (fsTok 20) n w' sms' (warn + if b then 1 else 0))
        = none
    rw [hstep]
    exact ih w' sms' _ hinv

/-- C9: the claim that `fix_footnotes` always returns (one rewrite per
occurrence) is false — on the malformed document
`\pard\par}\footnoteZ` (= `badPre 0 ++ fnTok ++ ['Z']`) the `while True`
loop never terminates: every pass re-finds the same `\footnote`, the `-1`
fallbacks splice the size directive at the end and after `\pard`, and the
final deletion duplicates the tail, so no fuel suffices. -/
theorem fix_footnotes_never_terminates (fuel : Nat) :
    fix_footnotes fuel (badPre 0 ++ fnTok ++ ['Z']) 10 = none := by
  unfold fix_footnotes
  rw [show fsTok (2 * 10) = fsTok 20 from rfl]
  apply fixLoopAux_diverges
  exact ⟨0, ['Z'], rfl, Or.inr ⟨rfl, rfl⟩, by decide, by decide, by decide⟩
